import Mathlib

/-!
Verification model of the nexus-ai RAG pipeline core.

The TypeScript sources are shallowly embedded:
* text is modelled as `List Char` (JS strings);
* JS `number` is modelled as `Int` for character offsets and as `ℝ` for
  similarity scores;
* async functions are modelled as pure functions, fallible calls as `Except`.

Sections follow the source files: chunking (`lib/rag/chunking.ts`),
context truncation (`lib/rag/service.ts`), embeddings (`lib/rag/embeddings.ts`),
ingestion orchestration (`lib/rag/service.ts`), the internal vector store
(`lib/rag/vector-store.ts`), the retriever and the pipeline
(`lib/rag/retrieval.ts`).
-/

namespace NexusRag

/-- Model of a JS string: a list of characters. -/
abbrev Str := List Char

/-- Convert a Lean string literal to the model type. -/
def lit (s : String) : Str := s.toList

/-- The whitespace class used by the source's regexes (`\s`) restricted to the
characters that actually occur in the modelled texts. -/
def isWs (c : Char) : Bool := c = ' ' || c = '\n' || c = '\t' || c = '\r'

/-- JS `String.prototype.trim()`: strip leading and trailing whitespace. -/
def jsTrim (s : Str) : Str :=
  ((s.dropWhile isWs).reverse.dropWhile isWs).reverse

/-- Splitting on a regex that matches maximal runs of characters satisfying
`p` (JS `split(/\s+/)` when `p = isWs`): segments between matches, including a
leading/trailing empty segment when the string starts/ends with a match.
`skipping` records that the scanner is inside a separator run. -/
def splitRunAux (p : Char → Bool) : Bool → List Char → List Char → List (List Char)
  | skipping, acc, [] => if skipping then [[]] else [acc.reverse]
  | true, _acc, c :: rest =>
    if p c then splitRunAux p true [] rest
    else splitRunAux p false [c] rest
  | false, acc, c :: rest =>
    if p c then acc.reverse :: splitRunAux p true [] rest
    else splitRunAux p false (c :: acc) rest

/-- JS `text.split(/\s+/)`. -/
def splitWs (s : Str) : List Str := splitRunAux isWs false [] s

/-- JS `text.split(/\n\n+/)`: split on runs of two or more newlines.  The
first argument records that the scanner is inside a newline run that has
already produced a boundary. -/
def splitParasAux : Bool → List Char → List Char → List (List Char)
  | true, _acc, [] => [[]]
  | false, acc, [] => [acc.reverse]
  | true, acc, '\n' :: rest => splitParasAux true acc rest
  | true, _acc, c :: rest => splitParasAux false [c] rest
  | false, acc, '\n' :: '\n' :: rest => acc.reverse :: splitParasAux true [] rest
  | false, acc, c :: rest => splitParasAux false (c :: acc) rest

/-- JS `text.split(/\n\n+/)`. -/
def splitParas (s : Str) : List Str := splitParasAux false [] s

/-- Is this character one of the sentence terminators `.`, `!`, `?`. -/
def isSentEnd (c : Char) : Bool := c = '.' || c = '!' || c = '?'

/-- JS `text.split(/(?<=[.!?])\s+/)`: split on maximal whitespace runs whose
preceding character is a sentence terminator.  `prevEnd` records whether the
previously consumed character is a sentence terminator; the second flag
records that the scanner is inside a separator run. -/
def splitSentencesAux : Bool → Bool → List Char → List Char → List (List Char)
  | _, skipping, acc, [] => if skipping then [[]] else [acc.reverse]
  | _prevEnd, true, _acc, c :: rest =>
    if isWs c then splitSentencesAux false true [] rest
    else splitSentencesAux (isSentEnd c) false [c] rest
  | prevEnd, false, acc, c :: rest =>
    if isWs c && prevEnd then acc.reverse :: splitSentencesAux false true [] rest
    else splitSentencesAux (isSentEnd c) false (c :: acc) rest

/-- JS `text.split(/(?<=[.!?])\s+/)`. -/
def splitSentences (s : Str) : List Str := splitSentencesAux false false [] s

/-- JS `array.join(" ")`. -/
def joinSp (ws : List Str) : Str := (ws.intersperse (lit " ")).flatten

/-- JS `s.slice(-k)`: the last `k` characters; for `k = 0` JS's `slice(-0)`
is `slice(0)`, the whole string. -/
def jsSliceLast (k : Nat) (s : Str) : Str :=
  if k = 0 then s else s.drop (s.length - k)

/-- The literal `"\n\n"` used by the source when gluing text fragments. -/
def nl2 : Str := lit "\n\n"

/-! ### Chunking (`lib/rag/chunking.ts`) -/

/-- `TextChunk` from `chunking.ts` (`metadata` is never set by the chunker and
is omitted). Offsets are JS numbers, modelled as `Int`. -/
structure TextChunk where
  content : Str
  index : Nat
  startChar : Int
  endChar : Int
deriving DecidableEq, Repr

/-- `ChunkOptions` from `chunking.ts` (the `separators` option is accepted but
never read by any strategy and is omitted). -/
structure ChunkOptions where
  strategy : String
  chunkSize : Nat
  chunkOverlap : Nat
  minChunkSize : Nat
deriving DecidableEq, Repr

/-- One merge step of `mergeSmallChunks`: the current chunk absorbs the next
(`content = current.content + "\n\n" + next.content`, `endChar = next.endChar`,
all other fields kept from `current`). -/
def mergeChunk (a b : TextChunk) : TextChunk :=
  { a with content := a.content ++ nl2 ++ b.content, endChar := b.endChar }

/-- The loop body of `mergeSmallChunks`: `cur` is the `current` variable, the
returned list is `merged` with the final `merged.push(current)` appended. -/
def mergeGo (minSize : Nat) : TextChunk → List TextChunk → List TextChunk
  | cur, [] => [cur]
  | cur, next :: rest =>
    if cur.content.length < minSize then mergeGo minSize (mergeChunk cur next) rest
    else cur :: mergeGo minSize next rest

/-- `mergeSmallChunks(chunks, minSize)` from `chunking.ts`. -/
def mergeSmallChunks (chunks : List TextChunk) (minSize : Nat) : List TextChunk :=
  if chunks.length ≤ 1 then chunks
  else
    match chunks with
    | [] => []
    | c :: rest => mergeGo minSize c rest

/-- The `while` loop of `chunkByFixedSize`.  `fuel` bounds the number of
iterations: the JS loop diverges when `chunkSize ≤ chunkOverlap` and the input
is long enough, in which case the model conservatively returns the chunks
accumulated so far. -/
def fixedLoop (words : List Str) (chunkSize chunkOverlap : Nat) :
    Nat → Nat → Nat → List TextChunk
  | 0, _, _ => []
  | _fuel + 1, start, index =>
    if start < words.length then
      let e := min (start + chunkSize) words.length
      let chunkWords := (words.drop start).take (e - start)
      let content := joinSp chunkWords
      let beforeText := (joinSp (words.take start)).length
      let chunk : TextChunk :=
        { content := content
          index := index
          startChar := (beforeText + start : Int)
          endChar := (beforeText + start + content.length : Int) }
      if e - start < chunkOverlap || decide (words.length ≤ e) then [chunk]
      else chunk :: fixedLoop words chunkSize chunkOverlap _fuel
        (start + (chunkSize - chunkOverlap)) (index + 1)
    else []

/-- The chunk list built by `chunkByFixedSize` before the merge pass. -/
def fixedRaw (text : Str) (opts : ChunkOptions) : List TextChunk :=
  let words := splitWs text
  fixedLoop words opts.chunkSize opts.chunkOverlap (words.length + 1) 0 0

/-- `chunkByFixedSize(text, options)` from `chunking.ts`. -/
def chunkByFixedSize (text : Str) (opts : ChunkOptions) : List TextChunk :=
  mergeSmallChunks (fixedRaw text opts) opts.minChunkSize

/-- Loop state shared by the paragraph and sentence strategies: the `chunks`
array, the `currentChunk` and `currentStart` accumulators and the running
`index`. -/
structure ChunkState where
  chunks : List TextChunk
  currentChunk : Str
  currentStart : Int
  index : Nat
deriving Repr

/-- `chunks.push({content, index: index++, startChar, endChar})`: append a
chunk carrying the running index and advance the index. -/
def pushChunk (st : ChunkState) (content : Str) (s e : Int) : ChunkState :=
  { st with
      chunks := st.chunks ++ [{ content := content, index := st.index,
                                startChar := s, endChar := e }]
      index := st.index + 1 }

/-- The inner `for (const sub of subChunks)` loops: push each sub-chunk with a
fresh index and offsets shifted by `currentStart`. -/
def pushSubChunks (st : ChunkState) (subs : List TextChunk) : ChunkState :=
  subs.foldl
    (fun st sub =>
      { st with
          chunks := st.chunks ++
            [{ sub with
                index := st.index
                startChar := st.currentStart + sub.startChar
                endChar := st.currentStart + sub.endChar }]
          index := st.index + 1 })
    st

/-- `chunks[chunks.length - 1]?.endChar || currentStart` (JS `||`: an
`endChar` of `0` is falsy and falls back to `currentStart`). -/
def lastEndCharOr (chunks : List TextChunk) (fallback : Int) : Int :=
  match chunks.getLast? with
  | none => fallback
  | some c => if c.endChar = 0 then fallback else c.endChar

/-- The body of `chunkBySentence`'s `for` loop over sentences. -/
def sentenceStep (opts : ChunkOptions) (st : ChunkState) (sentRaw : Str) :
    ChunkState :=
  let sentence := jsTrim sentRaw
  if sentence.isEmpty then st
  else if opts.chunkSize < sentence.length then
    -- oversized sentence: flush `currentChunk` (without clearing it, as the
    -- source does), then sub-chunk by fixed size at half the chunk size
    let st₁ :=
      if (jsTrim st.currentChunk).isEmpty then st
      else
        pushChunk st (jsTrim st.currentChunk) st.currentStart
          (st.currentStart + st.currentChunk.length)
    let subs := chunkByFixedSize sentence { opts with chunkSize := opts.chunkSize / 2 }
    let st₂ := pushSubChunks st₁ subs
    { st₂ with currentStart := lastEndCharOr st₂.chunks st₂.currentStart }
  else
    let st₁ :=
      if opts.chunkSize < st.currentChunk.length + sentence.length
          && !(jsTrim st.currentChunk).isEmpty then
        let overlapStart := st.currentChunk.length - min opts.chunkOverlap st.currentChunk.length
        let pushed := pushChunk st (jsTrim st.currentChunk) st.currentStart
          (st.currentStart + st.currentChunk.length)
        { pushed with
            currentChunk := st.currentChunk.drop overlapStart
            currentStart := st.currentStart +
              (if 0 < overlapStart then (opts.chunkOverlap : Int) else 0) }
      else st
    { st₁ with
        currentChunk :=
          st₁.currentChunk ++
            (if st₁.currentChunk.isEmpty then [] else lit ". ") ++ sentence }

/-- Append the trailing `currentChunk`, if non-blank, as a final chunk (shared
by the paragraph, sentence and semantic strategies). -/
def flushFinal (st : ChunkState) : List TextChunk :=
  if (jsTrim st.currentChunk).isEmpty then st.chunks
  else
    st.chunks ++
      [{ content := jsTrim st.currentChunk
         index := st.index
         startChar := st.currentStart
         endChar := st.currentStart + st.currentChunk.length }]

/-- The chunk list built by `chunkBySentence` before the merge pass. -/
def sentenceRaw (text : Str) (opts : ChunkOptions) : List TextChunk :=
  flushFinal ((splitSentences text).foldl (sentenceStep opts) ⟨[], [], 0, 0⟩)

/-- `chunkBySentence(text, options)` from `chunking.ts`. -/
def chunkBySentence (text : Str) (opts : ChunkOptions) : List TextChunk :=
  mergeSmallChunks (sentenceRaw text opts) opts.minChunkSize

/-- The body of `chunkByParagraph`'s `for` loop over paragraphs. -/
def paragraphStep (opts : ChunkOptions) (st : ChunkState) (paraRaw : Str) :
    ChunkState :=
  let trimmed := jsTrim paraRaw
  if trimmed.isEmpty then st
  else if opts.chunkSize < trimmed.length then
    let st₁ :=
      if (jsTrim st.currentChunk).isEmpty then st
      else
        { pushChunk st (jsTrim st.currentChunk) st.currentStart
            (st.currentStart + st.currentChunk.length) with
          currentChunk := [] }
    let subs := chunkBySentence trimmed { opts with chunkSize := opts.chunkSize / 2 }
    let st₂ := pushSubChunks st₁ subs
    { st₂ with currentStart := lastEndCharOr st₂.chunks st₂.currentStart }
  else if opts.chunkSize < st.currentChunk.length + trimmed.length
      && !(jsTrim st.currentChunk).isEmpty then
    let overlapText := jsSliceLast opts.chunkOverlap st.currentChunk
    let newChunk := overlapText ++ nl2 ++ trimmed
    { pushChunk st (jsTrim st.currentChunk) st.currentStart
        (st.currentStart + st.currentChunk.length) with
      currentChunk := newChunk
      currentStart := st.currentStart + newChunk.length
        - trimmed.length - overlapText.length }
  else
    { st with
        currentChunk :=
          st.currentChunk ++ (if st.currentChunk.isEmpty then [] else nl2) ++ trimmed }

/-- The chunk list built by `chunkByParagraph` before the merge pass. -/
def paragraphRaw (text : Str) (opts : ChunkOptions) : List TextChunk :=
  flushFinal ((splitParas text).foldl (paragraphStep opts) ⟨[], [], 0, 0⟩)

/-- `chunkByParagraph(text, options)` from `chunking.ts`. -/
def chunkByParagraph (text : Str) (opts : ChunkOptions) : List TextChunk :=
  mergeSmallChunks (paragraphRaw text opts) opts.minChunkSize

/-- `Partial<ChunkOptions>`: every field may be absent. -/
structure PartialChunkOptions where
  strategy : Option String := none
  chunkSize : Option Nat := none
  chunkOverlap : Option Nat := none
  minChunkSize : Option Nat := none
deriving DecidableEq, Repr

/-- JS `x || d` on an optional number: both `undefined` and `0` fall back. -/
def orDefaultNat (x : Option Nat) (d : Nat) : Nat :=
  match x with
  | none => d
  | some v => if v = 0 then d else v

/-- The resolved configuration built at the top of `chunkText`. -/
def resolveOptions (popts : PartialChunkOptions) : ChunkOptions :=
  { strategy := popts.strategy.getD "paragraph"
    chunkSize := orDefaultNat popts.chunkSize 1000
    chunkOverlap := orDefaultNat popts.chunkOverlap 200
    minChunkSize := orDefaultNat popts.minChunkSize 100 }

/-- `chunkText(text, options)` from `chunking.ts`: resolve defaults and
dispatch on the strategy (the `"semantic"` and unknown strategies both fall
back to the paragraph strategy). -/
def chunkText (text : Str) (popts : PartialChunkOptions) : List TextChunk :=
  let config := resolveOptions popts
  if config.strategy = "fixed" then chunkByFixedSize text config
  else if config.strategy = "sentence" then chunkBySentence text config
  else chunkByParagraph text config

/-! ### Context truncation (`truncateContext` in `lib/rag/service.ts`) -/

/-- JS `s.lastIndexOf(c)` generalised to a character class: the largest index
at which a character satisfying `p` occurs, `-1` if none does. -/
def lastIndexOfP (p : Char → Bool) : Str → Int
  | [] => -1
  | c :: rest =>
    let t := lastIndexOfP p rest
    if 0 ≤ t then t + 1 else if p c then 0 else -1

/-- `truncateContext(context, maxTokens)` from `service.ts`.  The JS guard
`cutoff > maxChars * 0.8` is floating-point; it is modelled exactly over the
rationals as `4 * maxChars < 5 * cutoff`. -/
def truncateContext (context : Str) (maxTokens : Nat) : Str :=
  let maxChars := maxTokens * 4
  if context.length ≤ maxChars then context
  else
    let truncated := context.take maxChars
    let lastPeriod := lastIndexOfP (· = '.') truncated
    let lastNewline := lastIndexOfP (· = '\n') truncated
    let cutoff := max lastPeriod lastNewline
    if (4 * maxChars : Int) < 5 * cutoff then truncated.take (cutoff + 1).toNat
    else truncated ++ lit "..."

/-- Modelled from the spec's words (claim C9): return the text unchanged when
it fits the character budget of `4 * maxTokens`; otherwise cut the first
`4 * maxTokens` characters at the last sentence-period or newline boundary
when that boundary lies within the last 20% of the budget, and else
hard-truncate at the budget and append an ellipsis marker. -/
def truncateContextSpec (text : Str) (maxTokens : Nat) : Str :=
  let budget := maxTokens * 4
  if text.length ≤ budget then text
  else
    let headPart := text.take budget
    let boundary := lastIndexOfP (fun c => c = '.' || c = '\n') headPart
    if (4 * budget : Int) < 5 * boundary then headPart.take (boundary.toNat + 1)
    else headPart ++ lit "..."

/-! ### Merge-pass lemmas -/

/-- `mergeGo` never returns an empty list. -/
theorem mergeGo_ne_nil (m : Nat) (cur : TextChunk) (rest : List TextChunk) :
    mergeGo m cur rest ≠ [] := by
  induction rest generalizing cur with
  | nil => simp [mergeGo]
  | cons next rest ih =>
    simp only [mergeGo]
    by_cases h : cur.content.length < m
    · simpa [h] using ih (mergeChunk cur next)
    · simp [h]

/-- Every chunk produced by the merge loop, except the last, has content of
length at least `m`. -/
theorem mergeGo_dropLast (m : Nat) (cur : TextChunk) (rest : List TextChunk) :
    ∀ x ∈ (mergeGo m cur rest).dropLast, m ≤ x.content.length := by
  induction rest generalizing cur with
  | nil => simp [mergeGo]
  | cons next rest ih =>
    intro x hx
    simp only [mergeGo] at hx
    by_cases h : cur.content.length < m
    · rw [if_pos h] at hx
      exact ih (mergeChunk cur next) x hx
    · rw [if_neg h] at hx
      rw [List.dropLast_cons_of_ne_nil (mergeGo_ne_nil m next rest)] at hx
      rcases List.mem_cons.mp hx with rfl | hx
      · omega
      · exact ih next x hx

/-- Every chunk returned by `mergeSmallChunks`, except possibly the last, has
content of length at least `minSize`. -/
theorem mergeSmallChunks_dropLast (chunks : List TextChunk) (minSize : Nat) :
    ∀ x ∈ (mergeSmallChunks chunks minSize).dropLast, minSize ≤ x.content.length := by
  unfold mergeSmallChunks
  by_cases h : chunks.length ≤ 1
  · rw [if_pos h]
    match chunks, h with
    | [], _ => simp
    | [c], _ => simp
  · rw [if_neg h]
    match chunks, h with
    | c :: rest, _ => exact mergeGo_dropLast minSize c rest

/-- `lastIndexOfP` is either `-1` or a valid index. -/
theorem lastIndexOfP_neg_or_nonneg (p : Char → Bool) (s : Str) :
    lastIndexOfP p s = -1 ∨ 0 ≤ lastIndexOfP p s := by
  cases s with
  | nil => left; rfl
  | cons c rest =>
    simp only [lastIndexOfP]
    by_cases h : 0 ≤ lastIndexOfP p rest
    · right; rw [if_pos h]; omega
    · rw [if_neg h]
      by_cases hp : p c = true
      · right; rw [if_pos hp]
      · left; rw [if_neg hp]

/-- The last occurrence of a union character class is the later of the last
occurrences of the two classes. -/
theorem lastIndexOfP_or (p q : Char → Bool) (s : Str) :
    lastIndexOfP (fun c => p c || q c) s =
      max (lastIndexOfP p s) (lastIndexOfP q s) := by
  induction s with
  | nil => rfl
  | cons c rest ih =>
    simp only [lastIndexOfP, ih]
    rcases lastIndexOfP_neg_or_nonneg p rest with hp | hp <;>
      rcases lastIndexOfP_neg_or_nonneg q rest with hq | hq <;>
      by_cases hpc : p c = true <;>
      by_cases hqc : q c = true <;>
      simp [hp, hq, hpc, hqc] <;>
      omega

/-- **C9.** `truncateContext` behaves exactly as the spec describes: the text
is returned unchanged when it fits the `4 * maxTokens` character budget;
otherwise the first `4 * maxTokens` characters are cut at the last
sentence-period or newline boundary when that boundary lies within the last
20% of the budget, and else hard-truncated at the budget with an ellipsis
marker appended. -/
theorem truncateContext_matches_spec (text : Str) (maxTokens : Nat) :
    truncateContext text maxTokens = truncateContextSpec text maxTokens := by
  simp only [truncateContext, truncateContextSpec]
  by_cases h1 : text.length ≤ maxTokens * 4
  · rw [if_pos h1, if_pos h1]
  · rw [if_neg h1, if_neg h1]
    have hcut : max (lastIndexOfP (· = '.') (text.take (maxTokens * 4)))
        (lastIndexOfP (· = '\n') (text.take (maxTokens * 4)))
        = lastIndexOfP (fun c => c = '.' || c = '\n') (text.take (maxTokens * 4)) :=
      (lastIndexOfP_or _ _ _).symm
    rw [hcut]
    by_cases h2 : 4 * ((maxTokens * 4 : Nat) : Int) <
        5 * lastIndexOfP (fun c => c = '.' || c = '\n') (text.take (maxTokens * 4))
    · rw [if_pos h2, if_pos h2]
      congr 1
      omega
    · rw [if_neg h2, if_neg h2]

/-- The merge pass as the amended claim C8 describes it: a chunk below
`minSize` absorbs the following chunk (merges forward), repeatedly, until it
reaches the threshold or no chunk follows; a sequence of at most one chunk is
returned unchanged. -/
def mergeForwardSpec (minSize : Nat) : List TextChunk → List TextChunk
  | [] => []
  | [c] => [c]
  | a :: b :: rest =>
    if a.content.length < minSize then mergeForwardSpec minSize (mergeChunk a b :: rest)
    else a :: mergeForwardSpec minSize (b :: rest)
termination_by l => l.length
decreasing_by
  · simp
  · simp

/-- Index of the first chunk below the threshold. -/
def findSmallIdx (minSize : Nat) (chunks : List TextChunk) : Option Nat :=
  chunks.findIdx? (fun c => decide (c.content.length < minSize))

/-- Merge the chunk at position `i + 1` into the chunk at position `i`. -/
def mergeIntoPrevAt (chunks : List TextChunk) (i : Nat) : List TextChunk :=
  chunks.take i ++
    (match chunks.drop i with
     | a :: b :: rest => mergeChunk a b :: rest
     | l => l)

/-- Modelled from the claim's words (C8): every chunk whose content is shorter
than `minSize` is merged into the previous chunk, except the first chunk,
which merges forward, repeating until no chunk remains below the threshold or
only one chunk is left.  `fuel` bounds the number of merge steps; each step
removes one chunk, so `chunks.length` steps always suffice. -/
def mergeBackwardSpec (minSize : Nat) : Nat → List TextChunk → List TextChunk
  | 0, chunks => chunks
  | fuel + 1, chunks =>
    if chunks.length ≤ 1 then chunks
    else
      match findSmallIdx minSize chunks with
      | none => chunks
      | some 0 => mergeBackwardSpec minSize fuel (mergeIntoPrevAt chunks 0)
      | some (i + 1) => mergeBackwardSpec minSize fuel (mergeIntoPrevAt chunks i)

/-- The merge loop agrees with the forward-merge description. -/
theorem mergeGo_eq_forward (m : Nat) (rest : List TextChunk) :
    ∀ cur, mergeGo m cur rest = mergeForwardSpec m (cur :: rest) := by
  induction rest with
  | nil => intro cur; simp [mergeGo, mergeForwardSpec]
  | cons next rest ih =>
    intro cur
    simp only [mergeGo, mergeForwardSpec]
    by_cases h : cur.content.length < m
    · rw [if_pos h, if_pos h, ih]
    · rw [if_neg h, if_neg h, ih]

/-- **C8 (counterexample).** On the chunk sequence with contents
`["AAAAAA", "b", "CCCCCC"]` and `minChunkSize = 2`, the code's merge pass does
not merge the small middle chunk into the previous chunk as the claim states:
the previous chunk is left untouched and the small chunk instead absorbs the
following chunk. -/
theorem mergeSmallChunks_not_backward :
    mergeSmallChunks
        [⟨lit "AAAAAA", 0, 0, 6⟩, ⟨lit "b", 1, 6, 7⟩, ⟨lit "CCCCCC", 2, 7, 13⟩] 2 ≠
      mergeBackwardSpec 2 3
        [⟨lit "AAAAAA", 0, 0, 6⟩, ⟨lit "b", 1, 6, 7⟩, ⟨lit "CCCCCC", 2, 7, 13⟩] ∧
    (mergeSmallChunks
        [⟨lit "AAAAAA", 0, 0, 6⟩, ⟨lit "b", 1, 6, 7⟩, ⟨lit "CCCCCC", 2, 7, 13⟩] 2).map
        (fun c => c.content) = [lit "AAAAAA", lit "b\n\nCCCCCC"] := by
  constructor
  · decide
  · decide

/-- **C8 (amended).** In the merge-small-chunks pass, every chunk whose content
is shorter than `minChunkSize` absorbs the following chunk (merges forward),
repeatedly, until it reaches the threshold or no chunk follows; only the last
chunk may remain below the threshold. -/
theorem mergeSmallChunks_eq_forward (chunks : List TextChunk) (minSize : Nat) :
    mergeSmallChunks chunks minSize = mergeForwardSpec minSize chunks := by
  match chunks with
  | [] => simp [mergeSmallChunks, mergeForwardSpec]
  | [c] => simp [mergeSmallChunks, mergeForwardSpec]
  | a :: b :: rest =>
    show mergeGo minSize a (b :: rest) = _
    exact mergeGo_eq_forward minSize (b :: rest) a

/-- **C7.** For every text, options record and strategy, every chunk returned
by the chunker after the merge pass, except possibly the last, has content
length at least the effective `minChunkSize`. -/
theorem chunkText_min_chunk_size (text : Str) (popts : PartialChunkOptions) :
    ∀ x ∈ (chunkText text popts).dropLast,
      (resolveOptions popts).minChunkSize ≤ x.content.length := by
  simp only [chunkText]
  split
  · unfold chunkByFixedSize
    exact mergeSmallChunks_dropLast _ _
  · split
    · unfold chunkBySentence
      exact mergeSmallChunks_dropLast _ _
    · unfold chunkByParagraph
      exact mergeSmallChunks_dropLast _ _

/-- Witness for C7 at a concrete input: chunking `"aa bb cc dd"` with the
fixed strategy (`chunkSize = 2`, `chunkOverlap = 1`, `minChunkSize = 6`)
produces a non-final chunk, and its content indeed has length at least 6. -/
theorem chunkText_min_chunk_size_witness :
    (⟨lit "aa bb\n\nbb cc", 0, 0, 8⟩ : TextChunk) ∈
        (chunkText (lit "aa bb cc dd")
          { strategy := some "fixed", chunkSize := some 2,
            chunkOverlap := some 1, minChunkSize := some 6 }).dropLast ∧
      (resolveOptions
          { strategy := some "fixed", chunkSize := some 2,
            chunkOverlap := some 1, minChunkSize := some 6 }).minChunkSize ≤
        (lit "aa bb\n\nbb cc").length :=
  ⟨by decide,
   chunkText_min_chunk_size (lit "aa bb cc dd")
     { strategy := some "fixed", chunkSize := some 2,
       chunkOverlap := some 1, minChunkSize := some 6 }
     ⟨lit "aa bb\n\nbb cc", 0, 0, 8⟩ (by decide)⟩

/-! ### Chunk-index lemmas (claim C5) -/

/-- Invariant threaded through the paragraph/sentence loops: the pushed chunks
carry the indices `0, 1, ...` in order and the running index equals the number
of pushed chunks. -/
def IndexInv (st : ChunkState) : Prop :=
  st.chunks.map TextChunk.index = List.range st.chunks.length ∧
    st.index = st.chunks.length

theorem pushChunk_indexInv {st : ChunkState} (h : IndexInv st)
    (c : Str) (s e : Int) : IndexInv (pushChunk st c s e) := by
  obtain ⟨h1, h2⟩ := h
  constructor
  · simp [pushChunk, List.range_succ, h1, h2]
  · simp [pushChunk, h2]

theorem pushSubChunks_indexInv (subs : List TextChunk) :
    ∀ st : ChunkState, IndexInv st → IndexInv (pushSubChunks st subs) := by
  induction subs with
  | nil => intro st h; exact h
  | cons sub subs ih =>
    intro st h
    obtain ⟨h1, h2⟩ := h
    refine ih _ ⟨?_, ?_⟩
    · simp [List.range_succ, h1, h2]
    · simp [h2]

set_option maxHeartbeats 1000000 in
theorem sentenceStep_indexInv (opts : ChunkOptions) (sent : Str)
    {st : ChunkState} (h : IndexInv st) : IndexInv (sentenceStep opts st sent) := by
  simp only [sentenceStep]
  split_ifs <;>
    first
      | exact pushSubChunks_indexInv _ _ (pushChunk_indexInv h _ _ _)
      | exact pushSubChunks_indexInv _ _ h
      | exact pushChunk_indexInv h _ _ _
      | exact h

set_option maxHeartbeats 1000000 in
theorem paragraphStep_indexInv (opts : ChunkOptions) (para : Str)
    {st : ChunkState} (h : IndexInv st) : IndexInv (paragraphStep opts st para) := by
  simp only [paragraphStep]
  split_ifs <;>
    first
      | exact pushSubChunks_indexInv _ _ (pushChunk_indexInv h _ _ _)
      | exact pushSubChunks_indexInv _ _ h
      | exact pushChunk_indexInv h _ _ _
      | exact h

theorem foldl_indexInv {α : Type} (step : ChunkState → α → ChunkState)
    (hstep : ∀ st x, IndexInv st → IndexInv (step st x)) :
    ∀ (l : List α) (st : ChunkState), IndexInv st → IndexInv (l.foldl step st) := by
  intro l
  induction l with
  | nil => intro st h; exact h
  | cons x l ih => intro st h; exact ih _ (hstep st x h)

theorem flushFinal_indices {st : ChunkState} (h : IndexInv st) :
    (flushFinal st).map TextChunk.index = List.range (flushFinal st).length := by
  obtain ⟨h1, h2⟩ := h
  unfold flushFinal
  split_ifs with hb
  · exact h1
  · simp [List.range_succ, h1, h2]

theorem fixedLoop_indices (words : List Str) (cs co : Nat) :
    ∀ (fuel start index : Nat), ∃ k,
      (fixedLoop words cs co fuel start index).map TextChunk.index =
        List.range' index k := by
  intro fuel
  induction fuel with
  | zero => intro start index; exact ⟨0, rfl⟩
  | succ fuel ih =>
    intro start index
    simp only [fixedLoop]
    split_ifs with h1 h2
    · exact ⟨1, rfl⟩
    · obtain ⟨k, hk⟩ := ih (start + (cs - co)) (index + 1)
      refine ⟨k + 1, ?_⟩
      rw [List.map_cons, hk]
      rfl
    · exact ⟨0, rfl⟩

theorem chain_lt_range' (n : Nat) : ∀ s, List.Chain' (· < ·) (List.range' s n) := by
  induction n with
  | zero => intro s; simp
  | succ n ih =>
    intro s
    cases n with
    | zero => simp
    | succ m =>
      rw [show List.range' s (m + 1 + 1) = s :: List.range' (s + 1) (m + 1) from rfl]
      exact List.Chain'.cons (by omega)
        (by simpa using ih (s + 1))

/-- The merge loop's first chunk keeps the index of the chunk it started from. -/
theorem mergeGo_head_index (m : Nat) (rest : List TextChunk) :
    ∀ cur, (mergeGo m cur rest).head?.map TextChunk.index = some cur.index := by
  induction rest with
  | nil => intro cur; rfl
  | cons next rest ih =>
    intro cur
    simp only [mergeGo]
    split_ifs with h
    · rw [ih (mergeChunk cur next)]; rfl
    · rfl

theorem chain_lt_skip {a b : Nat} {l : List Nat}
    (h : List.Chain' (· < ·) (a :: b :: l)) : List.Chain' (· < ·) (a :: l) := by
  cases l with
  | nil => simp
  | cons x l =>
    rcases List.chain'_cons.mp h with ⟨hab, h2⟩
    rcases List.chain'_cons.mp h2 with ⟨hbx, h3⟩
    exact List.chain'_cons.mpr ⟨by omega, h3⟩

/-- The merge loop preserves strictly increasing indices. -/
theorem mergeGo_chain (m : Nat) (rest : List TextChunk) :
    ∀ cur, List.Chain' (· < ·) ((cur :: rest).map TextChunk.index) →
      List.Chain' (· < ·) ((mergeGo m cur rest).map TextChunk.index) := by
  induction rest with
  | nil => intro cur _; simp [mergeGo]
  | cons next rest ih =>
    intro cur h
    simp only [mergeGo]
    split_ifs with hsm
    · refine ih (mergeChunk cur next) ?_
      simpa [mergeChunk] using chain_lt_skip (by simpa using h)
    · have htail : List.Chain' (· < ·) ((next :: rest).map TextChunk.index) :=
        (List.chain'_cons.mp (by simpa using h)).2
      have hcn : cur.index < next.index :=
        (List.chain'_cons.mp (by simpa using h)).1
      have hchain := ih next htail
      obtain ⟨y, t, hyt⟩ := List.exists_cons_of_ne_nil (mergeGo_ne_nil m next rest)
      have hhead := mergeGo_head_index m rest next
      rw [hyt] at hchain hhead
      simp at hhead
      rw [hyt]
      simp only [List.map_cons] at hchain ⊢
      exact List.chain'_cons.mpr ⟨by rw [hhead]; exact hcn, hchain⟩

/-- `mergeSmallChunks` preserves strictly increasing indices. -/
theorem mergeSmallChunks_chain (chunks : List TextChunk) (m : Nat)
    (h : List.Chain' (· < ·) (chunks.map TextChunk.index)) :
    List.Chain' (· < ·) ((mergeSmallChunks chunks m).map TextChunk.index) := by
  unfold mergeSmallChunks
  split_ifs with hl
  · exact h
  · match chunks, h with
    | c :: rest, h => exact mergeGo_chain m rest c h

/-- A chunk list whose indices are exactly `0, 1, ...` has strictly increasing
indices. -/
theorem chain_of_range {l : List TextChunk}
    (h : l.map TextChunk.index = List.range l.length) :
    List.Chain' (· < ·) (l.map TextChunk.index) := by
  rw [h, List.range_eq_range']
  exact chain_lt_range' l.length 0

/-- **C5 (amended).** For every input text, options record and chunking
strategy, the chunk sequence returned after the merge pass has strictly
increasing `index` values (before the merge pass they are contiguous from 0;
the merge pass keeps the index of the first chunk of each merged group and may
leave gaps). -/
theorem chunkText_indices_increasing (text : Str) (popts : PartialChunkOptions) :
    List.Chain' (· < ·) ((chunkText text popts).map TextChunk.index) := by
  have hinit : IndexInv ⟨[], [], 0, 0⟩ := ⟨rfl, rfl⟩
  simp only [chunkText]
  split
  · unfold chunkByFixedSize
    apply mergeSmallChunks_chain
    obtain ⟨k, hk⟩ := fixedLoop_indices (splitWs text) _ _ _ 0 0
    unfold fixedRaw
    rw [hk]
    exact chain_lt_range' k 0
  · split
    · unfold chunkBySentence
      apply mergeSmallChunks_chain
      apply chain_of_range
      exact flushFinal_indices
        (foldl_indexInv _ (fun st x h => sentenceStep_indexInv _ x h) _ _ hinit)
    · unfold chunkByParagraph
      apply mergeSmallChunks_chain
      apply chain_of_range
      exact flushFinal_indices
        (foldl_indexInv _ (fun st x h => paragraphStep_indexInv _ x h) _ _ hinit)

/-- **C5 (counterexample).** The claim as stated fails: chunking
`"aa bb cc dd"` with the fixed strategy (`chunkSize = 2`, `chunkOverlap = 1`,
`minChunkSize = 6`) yields chunk indices `[0, 2]` (the merge pass leaves a
gap), and chunking a 20-character paragraph followed by a 10-character
paragraph with the paragraph strategy (`chunkSize = 25`, `chunkOverlap = 5`,
`minChunkSize = 1`) yields `endChar` values `[20, 19]`, which decrease. -/
theorem chunkText_claim5_counterexample :
    ¬ ((chunkText (lit "aa bb cc dd")
          { strategy := some "fixed", chunkSize := some 2,
            chunkOverlap := some 1, minChunkSize := some 6 }).map TextChunk.index =
        List.range (chunkText (lit "aa bb cc dd")
          { strategy := some "fixed", chunkSize := some 2,
            chunkOverlap := some 1, minChunkSize := some 6 }).length) ∧
    ¬ List.Chain' (· ≤ ·)
        ((chunkText (lit "aaaaaaaaaaaaaaaaaaaa\n\nbbbbbbbbbb")
          { strategy := some "paragraph", chunkSize := some 25,
            chunkOverlap := some 5, minChunkSize := some 1 }).map TextChunk.endChar) := by
  constructor
  · decide
  · intro hmono
    have hmap : (chunkText (lit "aaaaaaaaaaaaaaaaaaaa\n\nbbbbbbbbbb")
          { strategy := some "paragraph", chunkSize := some 25,
            chunkOverlap := some 5, minChunkSize := some 1 }).map TextChunk.endChar =
        [(20 : Int), 19] := by decide
    rw [hmap] at hmono
    rcases List.chain'_cons.mp hmono with ⟨hle, _⟩
    omega

/-! ### Embedding providers (`lib/rag/embeddings.ts`) -/

/-- `EmbeddingResult` from `embeddings.ts`.  The embedding vector type is a
parameter `V`; the pipeline only routes vectors, never inspects them. -/
structure EmbeddingResult (V : Type) where
  embedding : V
  modelName : String
  provider : String
  tokens : Nat
deriving DecidableEq, Repr

/-- One `client.embeddings.create` response: the `data` array of embeddings
and `usage?.prompt_tokens`. -/
structure CreateResponse (V : Type) where
  data : List V
  promptTokens : Option Nat
deriving DecidableEq, Repr

/-- The batching loop of `OpenAIEmbeddingProvider.embed`, with
`maxBatchSize = 2048`.  A rejected `create` call is an `.error`; the source has
no `try`/`catch` here, so the rejection propagates through the `await` and
aborts the whole call.  `fuel` bounds iterations (each iteration consumes at
least one text, so `texts.length + 1` always suffices). -/
def openAIEmbedGo {V : Type} (modelName : String)
    (create : List Str → Except String (CreateResponse V)) :
    Nat → List Str → Except String (List (EmbeddingResult V))
  | 0, _ => .ok []
  | fuel + 1, remaining =>
    if remaining.isEmpty then .ok []
    else do
      let batch := remaining.take 2048
      let resp ← create batch
      let rs := resp.data.map
        (fun v => ⟨v, modelName, "openai", resp.promptTokens.getD 0⟩)
      let rest ← openAIEmbedGo modelName create fuel (remaining.drop 2048)
      return rs ++ rest

/-- `OpenAIEmbeddingProvider.embed(texts)` from `embeddings.ts`. -/
def openAIEmbed {V : Type} (modelName : String)
    (create : List Str → Except String (CreateResponse V))
    (texts : List Str) : Except String (List (EmbeddingResult V)) :=
  openAIEmbedGo modelName create (texts.length + 1) texts

/-- Two-iteration unfolding of the batching loop: first sub-batch accepted,
second sub-batch rejected — the rejection aborts the whole call. -/
theorem openAIEmbedGo_two_batches {V : Type} (mn : String)
    (create : List Str → Except String (CreateResponse V))
    (l : List Str) (fuel : Nat)
    (hne : l.isEmpty = false)
    (hc1 : create (l.take 2048) = .ok ⟨[], none⟩)
    (hne2 : (l.drop 2048).isEmpty = false)
    (hc2 : create ((l.drop 2048).take 2048) = .error "rate limit") :
    openAIEmbedGo mn create (fuel + 2) l = .error "rate limit" := by
  simp only [openAIEmbedGo, hne, hc1, hne2, hc2]
  simp [bind, Except.bind]

/-- **C6 (counterexample).** The claim as stated fails on
`OpenAIEmbeddingProvider.embed`: with 2049 texts (two sub-batches of sizes
2048 and 1) and a backend that rejects the second sub-batch, the whole call
aborts with the rejection --- the first sub-batch's results are discarded and
no error list with a batch index is returned to the caller. -/
theorem openAIEmbed_aborts_on_subbatch_failure :
    openAIEmbed (V := Unit) "text-embedding-3-small"
      (fun batch => if batch.length = 2048 then .ok ⟨[], none⟩
                    else .error "rate limit")
      (List.replicate 2049 (lit "a")) = .error "rate limit" := by
  unfold openAIEmbed
  have hfuel : (List.replicate 2049 (lit "a")).length + 1 = 2048 + 2 := by
    rw [List.length_replicate]
  rw [hfuel]
  apply openAIEmbedGo_two_batches
  · rw [List.isEmpty_replicate]
    norm_num
  · simp only [List.take_replicate, List.length_replicate]
    norm_num
  · simp only [List.drop_replicate, List.isEmpty_replicate]
    norm_num
  · simp only [List.drop_replicate, List.take_replicate, List.length_replicate]
    norm_num

/-! ### Ingestion orchestration (`DocumentIngestionService` in `service.ts`) -/

/-- `IngestionResult.status` values from `service.ts`. -/
inductive IngestStatus
  | success
  | failed
  | partialSuccess
deriving DecidableEq, Repr

/-- `IngestionResult` from `service.ts` (`errors` is the possibly-empty error
array; the source omits the field when empty). -/
structure IngestionResult where
  documentId : String
  chunksCount : Nat
  status : IngestStatus
  errors : List String
deriving DecidableEq, Repr

/-- The embedding loop of `processDocument` (batches of `batchSize = 100`
chunks).  `embed` models `this.embeddingProvider.embed` for one batch: `.ok`
with one vector per chunk, or `.error` for a rejected call.  Returns the
`allEmbeddings` array (chunk/vector pairs; should the backend return more
vectors than the batch has chunks, the JS loop would push `undefined` chunks
--- the model truncates at the batch length instead) and the `errors` array.
`i` is the chunk offset as in the source; failed batches are recorded as
`Embedding batch ⌊i/100⌋+1 failed: <message>` and processing continues. -/
def embedChunksGo {V : Type} (embed : List Str → Except String (List V)) :
    Nat → Nat → List TextChunk → List (TextChunk × V) × List String
  | 0, _, _ => ([], [])
  | fuel + 1, i, remaining =>
    if remaining.isEmpty then ([], [])
    else
      let batch := remaining.take 100
      let texts := batch.map (fun c => c.content)
      let (restE, restErr) := embedChunksGo embed fuel (i + 100) (remaining.drop 100)
      match embed texts with
      | .ok results => (batch.zip results ++ restE, restErr)
      | .error e =>
        (restE, ("Embedding batch " ++ toString (i / 100 + 1) ++ " failed: " ++ e) :: restErr)

/-- Entry point of the embedding loop (`i = 0`, sufficient fuel). -/
def embedChunksLoop {V : Type} (embed : List Str → Except String (List V))
    (chunks : List TextChunk) : List (TextChunk × V) × List String :=
  embedChunksGo embed (chunks.length + 1) 0 chunks

/-- The chunking configuration resolved at the top of `processDocument`
(`chunkingOptions?.strategy || "paragraph"`, other fields defaulting to the
service's `RagConfig`). -/
def resolveServiceChunkCfg (copts : PartialChunkOptions) (cfg : ChunkOptions) :
    PartialChunkOptions :=
  { strategy := some (copts.strategy.getD "paragraph")
    chunkSize := some (orDefaultNat copts.chunkSize cfg.chunkSize)
    chunkOverlap := some (orDefaultNat copts.chunkOverlap cfg.chunkOverlap)
    minChunkSize := some (orDefaultNat copts.minChunkSize cfg.minChunkSize) }

/-- `DocumentIngestionService.processDocument` from `service.ts`.  The Prisma
progress updates and the vector-store/chunk-table upserts are persistence
effects modelled as non-failing, so the catch-all `failed` path of the source
is reachable only through parsing, which `ingestDocument` handles. -/
def processDocument {V : Type} (documentId : String) (content : Str)
    (copts : PartialChunkOptions) (cfg : ChunkOptions)
    (embed : List Str → Except String (List V)) : IngestionResult :=
  let chunks := chunkText content (resolveServiceChunkCfg copts cfg)
  if chunks.isEmpty then
    { documentId := documentId, chunksCount := 0, status := .failed,
      errors := ["No content to chunk"] }
  else
    let (allEmbeddings, errors) := embedChunksLoop embed chunks
    { documentId := documentId
      chunksCount := allEmbeddings.length
      status := if errors.isEmpty then .success else .partialSuccess
      errors := errors }

/-- `DocumentIngestionService.ingestDocument` from `service.ts`: a parse
failure is caught and reported as `failed`; otherwise the parsed content is
processed. -/
def ingestDocument {V : Type} (documentId : String)
    (parse : Except String Str) (copts : PartialChunkOptions)
    (cfg : ChunkOptions) (embed : List Str → Except String (List V)) :
    IngestionResult :=
  match parse with
  | .error e =>
    { documentId := "", chunksCount := 0, status := .failed, errors := [e] }
  | .ok content => processDocument documentId content copts cfg embed

/-- The service's default chunking configuration (`defaultRagConfig` in
`types.ts`). -/
def defaultServiceChunkCfg : ChunkOptions :=
  { strategy := "paragraph", chunkSize := 1000, chunkOverlap := 200,
    minChunkSize := 100 }

/-- The 100-chunk batches that `processDocument`'s embedding loop works
through, in order. -/
def batches100 : List TextChunk → List (List TextChunk)
  | [] => []
  | c :: rest => (c :: rest).take 100 :: batches100 ((c :: rest).drop 100)
termination_by l => l.length
decreasing_by
  simp only [List.length_drop, List.length_cons]
  omega

/-- The error entry the loop records for batch number `k + 1`, or `none` if
the batch embeds successfully. -/
def batchOutcomeErr {V : Type} (embed : List Str → Except String (List V))
    (p : Nat × List TextChunk) : Option String :=
  match embed (p.2.map (fun c => c.content)) with
  | .ok _ => none
  | .error e => some ("Embedding batch " ++ toString (p.1 + 1) ++ " failed: " ++ e)

/-- The chunk/vector pairs one batch contributes to `allEmbeddings`: its
zipped results on success and nothing on failure. -/
def batchOutcomeOk {V : Type} (embed : List Str → Except String (List V))
    (b : List TextChunk) : List (TextChunk × V) :=
  match embed (b.map (fun c => c.content)) with
  | .ok results => b.zip results
  | .error _ => []

theorem embedChunksGo_spec {V : Type} (embed : List Str → Except String (List V)) :
    ∀ (fuel k : Nat) (remaining : List TextChunk), remaining.length < fuel →
      embedChunksGo embed fuel (100 * k) remaining =
        ((batches100 remaining).flatMap (batchOutcomeOk embed),
         ((batches100 remaining).enumFrom k).filterMap (batchOutcomeErr embed)) := by
  intro fuel
  induction fuel with
  | zero => intro k remaining h; omega
  | succ fuel ih =>
    intro k remaining h
    match remaining with
    | [] => simp [embedChunksGo, batches100]
    | c :: rest =>
      rw [List.length_cons] at h
      have hdrop : ((c :: rest).drop 100).length < fuel := by
        rw [List.length_drop, List.length_cons]
        omega
      have hrec := ih (k + 1) ((c :: rest).drop 100) hdrop
      have hoff : 100 * k + 100 = 100 * (k + 1) := by ring
      rw [show batches100 (c :: rest) =
        (c :: rest).take 100 :: batches100 ((c :: rest).drop 100) from by
          rw [batches100]]
      simp only [embedChunksGo, List.isEmpty_cons, hoff, hrec,
        List.flatMap_cons, List.enumFrom_cons, List.filterMap_cons,
        batchOutcomeOk, batchOutcomeErr]
      cases hembed : embed (((c :: rest).take 100).map (fun c => c.content)) with
      | ok results =>
        simp only [hembed, Bool.false_eq_true, if_false]
      | error e =>
        simp only [hembed, Bool.false_eq_true, if_false,
          Nat.mul_div_cancel_left k (by norm_num : 0 < 100), List.nil_append]

/-- **C6 (amended).** The per-sub-batch failure isolation the claim describes
lives in `DocumentIngestionService.processDocument`'s 100-chunk batch loop,
not in `OpenAIEmbeddingProvider.embed` (which aborts wholesale, see the
counterexample): a failing batch is recorded in `errors[]` as
`Embedding batch <k+1> failed: <message>` under its batch index, sibling
batches still execute and contribute their chunk/vector pairs, and the caller
receives the successfully embedded pairs together with the error list. -/
theorem embedChunksLoop_isolates_failures {V : Type}
    (embed : List Str → Except String (List V)) (chunks : List TextChunk) :
    embedChunksLoop embed chunks =
      ((batches100 chunks).flatMap (batchOutcomeOk embed),
       ((batches100 chunks).enum).filterMap (batchOutcomeErr embed)) := by
  have h := embedChunksGo_spec embed (chunks.length + 1) 0 chunks (by omega)
  simp only [Nat.mul_zero] at h
  unfold embedChunksLoop
  rw [h]
  rfl

/-- **C3 (counterexample).** The claim as stated fails: when parsing succeeds,
one chunk is produced, and the single embedding batch fails, zero chunks are
embedded, yet the reported status is `partial`, not `failed` as the claim
requires for the zero-chunks-embedded case. -/
theorem ingest_zero_embedded_reports_partial :
    ingestDocument (V := Unit) "d1" (.ok (lit "aaa")) {} defaultServiceChunkCfg
        (fun _ => .error "boom") =
      { documentId := "d1", chunksCount := 0, status := .partialSuccess,
        errors := ["Embedding batch 1 failed: boom"] } := by
  decide

/-- **C3 (amended).** The final reported status is `success` exactly when zero
embedding-batch errors occurred; it is `partial` exactly when at least one
batch failed (whether or not any chunk was embedded); and it is `failed`
exactly when parsing failed or zero chunks were produced. -/
theorem ingestDocument_status_characterization {V : Type} (docId : String)
    (copts : PartialChunkOptions) (cfg : ChunkOptions)
    (embed : List Str → Except String (List V)) :
    (∀ e, ingestDocument (V := V) docId (.error e) copts cfg embed =
      { documentId := "", chunksCount := 0, status := .failed, errors := [e] }) ∧
    (∀ content,
      (chunkText content (resolveServiceChunkCfg copts cfg) = [] →
        ingestDocument (V := V) docId (.ok content) copts cfg embed =
          { documentId := docId, chunksCount := 0, status := .failed,
            errors := ["No content to chunk"] }) ∧
      (chunkText content (resolveServiceChunkCfg copts cfg) ≠ [] →
        ((ingestDocument (V := V) docId (.ok content) copts cfg embed).status
            = .success ↔
          (embedChunksLoop embed
            (chunkText content (resolveServiceChunkCfg copts cfg))).2 = []) ∧
        ((ingestDocument (V := V) docId (.ok content) copts cfg embed).status
            = .partialSuccess ↔
          (embedChunksLoop embed
            (chunkText content (resolveServiceChunkCfg copts cfg))).2 ≠ []))) := by
  refine ⟨fun e => rfl, fun content => ⟨fun hempty => ?_, fun hne => ?_⟩⟩
  · simp [ingestDocument, processDocument, hempty]
  · have hbe : (chunkText content (resolveServiceChunkCfg copts cfg)).isEmpty = false := by
      simpa [List.isEmpty_iff] using hne
    constructor
    · simp only [ingestDocument, processDocument, hbe]
      by_cases herr : (embedChunksLoop embed
          (chunkText content (resolveServiceChunkCfg copts cfg))).2 = []
      · simp [herr, List.isEmpty_iff]
      · simp [herr, List.isEmpty_iff]
    · simp only [ingestDocument, processDocument, hbe]
      by_cases herr : (embedChunksLoop embed
          (chunkText content (resolveServiceChunkCfg copts cfg))).2 = []
      · simp [herr, List.isEmpty_iff]
      · simp [herr, List.isEmpty_iff]

/-- Witness for C3 (amended) at a concrete input: parsing succeeds with
`"aaa"`, one chunk is produced, the embedding backend succeeds, and the status
is `success` exactly because the error list is empty. -/
theorem ingestDocument_status_witness :
    chunkText (lit "aaa") (resolveServiceChunkCfg {} defaultServiceChunkCfg) ≠ [] ∧
    ((ingestDocument (V := Unit) "d1" (.ok (lit "aaa")) {} defaultServiceChunkCfg
        (fun ts => .ok (ts.map fun _ => ()))).status = .success ↔
      (embedChunksLoop (fun ts : List Str => .ok (ts.map fun _ => ()))
        (chunkText (lit "aaa")
          (resolveServiceChunkCfg {} defaultServiceChunkCfg))).2 = []) :=
  ⟨by decide,
   (((ingestDocument_status_characterization (V := Unit) "d1" {}
        defaultServiceChunkCfg (fun ts => .ok (ts.map fun _ => ()))).2
      (lit "aaa")).2 (by decide)).1⟩

/-! ### Retriever (`lib/rag/retrieval.ts`)

Similarity scores are JS numbers, modelled as `ℝ`; the vector store and the
embedding provider are the `search`/`embedSingle` functions the `Retriever`
is constructed with, passed as function parameters. -/

/-- The metadata of a search result (`documentName` set by the internal
store; `startChar`/`endChar` may be absent). -/
structure SearchMeta where
  documentName : Option Str
  startChar : Option Int
  endChar : Option Int

/-- `VectorSearchResult` from `types.ts`. -/
structure VectorSearchResult where
  id : Str
  documentId : Str
  chunkIndex : Nat
  content : Str
  score : ℝ
  metadata : SearchMeta

/-- `DocumentChunk` as built by `Retriever.retrieve`. -/
structure DocumentChunk where
  id : Str
  documentId : Str
  documentName : Str
  content : Str
  chunkIndex : Nat
  startChar : Option Int
  endChar : Option Int
  score : ℝ
  metadata : SearchMeta

/-- `RetrievalResult` from `types.ts`.  `executionTime` is wall-clock latency
(`Date.now()` differences); time is not modelled and the field is `0`. -/
structure RetrievalResult where
  chunks : List DocumentChunk
  totalChunks : Nat
  query : Str
  executionTime : Nat

/-- The `RagConfig` fields read by the retriever and the context builder. -/
structure RagCfg where
  retrievalTopK : Nat
  similarityThreshold : ℝ
  rerankEnabled : Bool
  rerankModel : Option Str
  maxContextTokens : Nat
  includeCitations : Bool
  citationFormat : Str

/-- `RetrievalOptions` from `retrieval.ts` (the fields the retriever reads;
absent fields are `none` and take the destructuring defaults). -/
structure RetrievalOptions where
  query : Str
  userId : Str
  documentIds : Option (List Str)
  topK : Option Nat
  similarityThreshold : Option ℝ
  useRag : Option Bool

/-- The filter object built by `Retriever.retrieve`: always the `userId`, plus
a `documentId: {$in: documentIds}` clause when a non-empty list is given. -/
structure SearchFilter where
  userId : Str
  documentIds : Option (List Str)

/-- The filter construction in `Retriever.retrieve`. -/
def mkFilter (options : RetrievalOptions) : SearchFilter :=
  { userId := options.userId
    documentIds :=
      match options.documentIds with
      | some l => if l.length > 0 then some l else none
      | none => none }

/-- `rerankResults` from `retrieval.ts`: the re-ranking slot is a placeholder
that keeps the original score order and truncates to `topK`. -/
def rerankResults (results : List VectorSearchResult) (topK : Nat) :
    List VectorSearchResult :=
  results.take topK

/-- Conversion of a search result to a `DocumentChunk`
(`r.metadata?.documentName || "Unknown"` for the name). -/
def toDocumentChunk (r : VectorSearchResult) : DocumentChunk :=
  { id := r.id
    documentId := r.documentId
    documentName :=
      match r.metadata.documentName with
      | some n => if n.isEmpty then lit "Unknown" else n
      | none => lit "Unknown"
    content := r.content
    chunkIndex := r.chunkIndex
    startChar := r.metadata.startChar
    endChar := r.metadata.endChar
    score := r.score
    metadata := r.metadata }

/-- `Retriever.retrieve(options)` from `retrieval.ts`.  `searchFn` is the
vector store's `search`, `embedSingle` the embedding provider's
`embedSingle` (returning just the embedding). -/
noncomputable def retrieve (cfg : RagCfg)
    (searchFn : List ℝ → Nat → SearchFilter → List VectorSearchResult)
    (embedSingle : Str → List ℝ) (options : RetrievalOptions) :
    RetrievalResult :=
  let topK := options.topK.getD cfg.retrievalTopK
  let similarityThreshold := options.similarityThreshold.getD cfg.similarityThreshold
  let useRag := options.useRag.getD true
  if !useRag then
    { chunks := [], totalChunks := 0, query := options.query, executionTime := 0 }
  else
    let queryEmbedding := embedSingle options.query
    let results := searchFn queryEmbedding (topK * 2) (mkFilter options)
    let filteredResults := results.filter
      (fun r => decide (similarityThreshold ≤ r.score))
    let rankedResults :=
      if cfg.rerankEnabled && cfg.rerankModel.isSome then
        rerankResults filteredResults topK
      else
        filteredResults.take topK
    { chunks := rankedResults.map toDocumentChunk
      totalChunks := results.length
      query := options.query
      executionTime := 0 }

/-- **C2.** For every `Retriever.retrieve` call with effective `useRag = true`:
the returned chunks list has length at most the effective `topK`; every
returned chunk's score is at least the effective `similarityThreshold`; the
returned scores are a sublist of the vector store's result scores (so the
store's descending-score order is preserved); and in the concrete scenario of
stored candidates scoring `[0.9, 0.75, 0.5]` with `similarityThreshold = 0.7`,
exactly the first two candidates are returned, in that order. -/
theorem retrieve_filtering_correct :
    (∀ (cfg : RagCfg) (searchFn : List ℝ → Nat → SearchFilter → List VectorSearchResult)
       (embedSingle : Str → List ℝ) (options : RetrievalOptions),
      options.useRag.getD true = true →
      (retrieve cfg searchFn embedSingle options).chunks.length ≤
          options.topK.getD cfg.retrievalTopK ∧
        (∀ c ∈ (retrieve cfg searchFn embedSingle options).chunks,
          options.similarityThreshold.getD cfg.similarityThreshold ≤ c.score) ∧
        ((retrieve cfg searchFn embedSingle options).chunks.map DocumentChunk.score).Sublist
          ((searchFn (embedSingle options.query)
              ((options.topK.getD cfg.retrievalTopK) * 2)
              (mkFilter options)).map VectorSearchResult.score) ∧
        (List.Chain' (· ≥ ·)
            ((searchFn (embedSingle options.query)
                ((options.topK.getD cfg.retrievalTopK) * 2)
                (mkFilter options)).map VectorSearchResult.score) →
          List.Chain' (· ≥ ·)
            ((retrieve cfg searchFn embedSingle options).chunks.map DocumentChunk.score))) ∧
    ((retrieve
        { retrievalTopK := 5, similarityThreshold := 0.7, rerankEnabled := false,
          rerankModel := none, maxContextTokens := 4000, includeCitations := true,
          citationFormat := lit "numbered" }
        (fun _ _ _ =>
          [{ id := lit "c1", documentId := lit "d", chunkIndex := 0,
             content := lit "x", score := 0.9, metadata := ⟨none, none, none⟩ },
           { id := lit "c2", documentId := lit "d", chunkIndex := 1,
             content := lit "y", score := 0.75, metadata := ⟨none, none, none⟩ },
           { id := lit "c3", documentId := lit "d", chunkIndex := 2,
             content := lit "z", score := 0.5, metadata := ⟨none, none, none⟩ }])
        (fun _ => [])
        { query := lit "q", userId := lit "u", documentIds := none,
          topK := none, similarityThreshold := none, useRag := none }).chunks.map
      (fun c => (c.id, c.score)) = [(lit "c1", (0.9 : ℝ)), (lit "c2", 0.75)]) := by
  constructor
  · intro cfg searchFn embedSingle options huse
    simp only [retrieve, huse, Bool.not_true, Bool.false_eq_true, if_false]
    set th := options.similarityThreshold.getD cfg.similarityThreshold
    set results := searchFn (embedSingle options.query)
      ((options.topK.getD cfg.retrievalTopK) * 2) (mkFilter options)
    have hranked :
        (if cfg.rerankEnabled && cfg.rerankModel.isSome then
            rerankResults (results.filter (fun r => decide (th ≤ r.score)))
              (options.topK.getD cfg.retrievalTopK)
          else
            (results.filter (fun r => decide (th ≤ r.score))).take
              (options.topK.getD cfg.retrievalTopK)) =
          (results.filter (fun r => decide (th ≤ r.score))).take
            (options.topK.getD cfg.retrievalTopK) := by
      unfold rerankResults
      split <;> rfl
    rw [hranked]
    refine ⟨?_, ?_, ?_, ?_⟩
    · rw [List.length_map]
      exact List.length_take_le _ _
    · intro c hc
      obtain ⟨r, hr, rfl⟩ := List.mem_map.mp hc
      have hr' : r ∈ results.filter (fun r => decide (th ≤ r.score)) :=
        (List.take_sublist _ _).mem hr
      have := List.of_mem_filter hr'
      simpa [toDocumentChunk] using of_decide_eq_true this
    · have hsub :
          ((results.filter (fun r => decide (th ≤ r.score))).take
              (options.topK.getD cfg.retrievalTopK)).Sublist results :=
        (List.take_sublist _ _).trans (List.filter_sublist _)
      have := hsub.map VectorSearchResult.score
      simpa [List.map_map, Function.comp, toDocumentChunk] using
        (hsub.map (fun r => (toDocumentChunk r).score))
    · intro hsorted
      have hsub :
          ((results.filter (fun r => decide (th ≤ r.score))).take
              (options.topK.getD cfg.retrievalTopK)).Sublist results :=
        (List.take_sublist _ _).trans (List.filter_sublist _)
      have hsub2 := hsub.map VectorSearchResult.score
      have hchain := hsorted.sublist hsub2
      simpa [List.map_map, Function.comp, toDocumentChunk] using hchain
  · simp only [retrieve, rerankResults, mkFilter, Option.getD]
    norm_num [List.filter, toDocumentChunk]

/-- Witness for C2 at a concrete input: with the default options (effective
`useRag = true`), a store returning candidates scoring `[0.9, 0.75, 0.5]` in
descending order, and `similarityThreshold = 0.7`, the retrieved chunks number
at most `topK = 5` and keep descending scores. -/
theorem retrieve_filtering_correct_witness :
    (({ query := lit "q", userId := lit "u", documentIds := none, topK := none,
        similarityThreshold := none, useRag := none } : RetrievalOptions).useRag.getD true
      = true) ∧
    (retrieve
        { retrievalTopK := 5, similarityThreshold := 0.7, rerankEnabled := false,
          rerankModel := none, maxContextTokens := 4000, includeCitations := true,
          citationFormat := lit "numbered" }
        (fun _ _ _ =>
          [{ id := lit "c1", documentId := lit "d", chunkIndex := 0,
             content := lit "x", score := 0.9, metadata := ⟨none, none, none⟩ },
           { id := lit "c2", documentId := lit "d", chunkIndex := 1,
             content := lit "y", score := 0.75, metadata := ⟨none, none, none⟩ },
           { id := lit "c3", documentId := lit "d", chunkIndex := 2,
             content := lit "z", score := 0.5, metadata := ⟨none, none, none⟩ }])
        (fun _ => [])
        { query := lit "q", userId := lit "u", documentIds := none,
          topK := none, similarityThreshold := none, useRag := none }).chunks.length ≤ 5 ∧
    List.Chain' (· ≥ ·)
      ((retrieve
        { retrievalTopK := 5, similarityThreshold := 0.7, rerankEnabled := false,
          rerankModel := none, maxContextTokens := 4000, includeCitations := true,
          citationFormat := lit "numbered" }
        (fun _ _ _ =>
          [{ id := lit "c1", documentId := lit "d", chunkIndex := 0,
             content := lit "x", score := 0.9, metadata := ⟨none, none, none⟩ },
           { id := lit "c2", documentId := lit "d", chunkIndex := 1,
             content := lit "y", score := 0.75, metadata := ⟨none, none, none⟩ },
           { id := lit "c3", documentId := lit "d", chunkIndex := 2,
             content := lit "z", score := 0.5, metadata := ⟨none, none, none⟩ }])
        (fun _ => [])
        { query := lit "q", userId := lit "u", documentIds := none,
          topK := none, similarityThreshold := none, useRag := none }).chunks.map
        DocumentChunk.score) := by
  have h := retrieve_filtering_correct.1
    { retrievalTopK := 5, similarityThreshold := 0.7, rerankEnabled := false,
      rerankModel := none, maxContextTokens := 4000, includeCitations := true,
      citationFormat := lit "numbered" }
    (fun _ _ _ =>
      [{ id := lit "c1", documentId := lit "d", chunkIndex := 0,
         content := lit "x", score := 0.9, metadata := ⟨none, none, none⟩ },
       { id := lit "c2", documentId := lit "d", chunkIndex := 1,
         content := lit "y", score := 0.75, metadata := ⟨none, none, none⟩ },
       { id := lit "c3", documentId := lit "d", chunkIndex := 2,
         content := lit "z", score := 0.5, metadata := ⟨none, none, none⟩ }])
    (fun _ => [])
    { query := lit "q", userId := lit "u", documentIds := none,
      topK := none, similarityThreshold := none, useRag := none } rfl
  exact ⟨rfl, h.1, h.2.2.2 (by norm_num [List.chain'_cons])⟩

/-! ### Query builder, context builder and pipeline (`lib/rag/retrieval.ts`) -/

/-- The fixed stop-word list of `QueryBuilder.expandQuery`. -/
def stopWords : List Str :=
  [lit "the", lit "a", lit "an", lit "is", lit "are", lit "was", lit "were",
   lit "be", lit "been", lit "being", lit "have", lit "has", lit "had",
   lit "do", lit "does", lit "did", lit "will", lit "would", lit "could",
   lit "should", lit "may", lit "might", lit "must", lit "shall", lit "can",
   lit "need", lit "dare", lit "to", lit "of", lit "in", lit "for", lit "on",
   lit "with", lit "at", lit "by", lit "from", lit "as", lit "into",
   lit "through", lit "during", lit "before", lit "after", lit "above",
   lit "below", lit "between", lit "under", lit "again", lit "further",
   lit "then", lit "once", lit "here", lit "there", lit "when", lit "where",
   lit "why", lit "how", lit "all", lit "each", lit "few", lit "more",
   lit "most", lit "other", lit "some", lit "such", lit "no", lit "nor",
   lit "not", lit "only", lit "own", lit "same", lit "so", lit "than",
   lit "too", lit "very", lit "just"]

/-- JS `\w`: ASCII letters, digits and underscore. -/
def isWordChar (c : Char) : Bool := c.isAlphanum || c = '_'

/-- First-occurrence deduplication (`Array.from(new Set(words))` keeps the
insertion order of a JS `Set`). -/
def dedupFirst (seen : List Str) : List Str → List Str
  | [] => []
  | w :: rest =>
    if seen.contains w then dedupFirst seen rest
    else w :: dedupFirst (w :: seen) rest

/-- `QueryBuilder.expandQuery(query, maxExpansions = 5)`:
lower-case, strip non-word characters, split on whitespace, drop short words
and stop words, de-duplicate, take the first `maxExpansions` keywords and
append them to the original query. -/
def expandQuery (query : Str) (maxExpansions : Nat) : Str :=
  let words := (splitWs ((query.map Char.toLower).filter
      (fun c => isWordChar c || isWs c))).filter
    (fun w => decide (2 < w.length) && !(stopWords.contains w))
  let keywords := (dedupFirst [] words).take maxExpansions
  query ++ lit " " ++ joinSp keywords

/-- The HyDE prompt template of `QueryBuilder.buildHyDEQuery`. -/
def hydePrompt (query : Str) : Str :=
  lit "Generate a brief, factual document that would answer this question. \nThe document should contain relevant information that could help answer the question.\nQuestion: " ++
    query ++ lit "\n\nDocument:"

/-- The decomposition prompt template of `QueryBuilder.decomposeQuery`. -/
def decomposePrompt (query : Str) : Str :=
  lit "Break down this question into 2-4 simpler sub-questions that would help answer the main question.\nEach sub-question should be self-contained and searchable.\n\nMain Question: " ++
    query ++ lit "\n\nSub-questions (one per line):"

/-- JS `s.split("\n")` (single-character separator, empty segments kept). -/
def splitNl (acc : List Char) : List Char → List Str
  | [] => [acc.reverse]
  | '\n' :: rest => acc.reverse :: splitNl [] rest
  | c :: rest => splitNl (c :: acc) rest

/-- JS `q.replace(/^\d+[\.\)]\s*\/, "")`: strip one leading list-number
marker (digits followed by `.` or `)` and optional whitespace). -/
def stripListMarker (q : Str) : Str :=
  let digits := q.takeWhile Char.isDigit
  if digits.isEmpty then q
  else
    match q.drop digits.length with
    | '.' :: rest => rest.dropWhile isWs
    | ')' :: rest => rest.dropWhile isWs
    | _ => q

/-- `QueryBuilder.decomposeQuery`: ask the injected generator for
sub-questions, split its answer on newlines, strip list markers, trim, and
keep lines longer than 10 characters. -/
def decomposeQuery (query : Str) (llmGen : Str → Str) : List Str :=
  ((splitNl [] (llmGen (decomposePrompt query))).map
    (fun q => jsTrim (stripListMarker q))).filter (fun q => decide (10 < q.length))

/-- `Citation` from `types.ts`. -/
structure Citation where
  chunkId : Str
  documentId : Str
  documentName : Str
  score : ℝ
  content : Str
  startChar : Option Int
  endChar : Option Int

/-- `RagContext` from `types.ts` (metadata fields inlined). -/
structure RagContext where
  prompt : Str
  context : Str
  citations : List Citation
  retrievalTime : Nat
  chunksUsed : Nat
  totalTokens : Nat

/-- `ContextBuilder.buildContext`: format the ranked chunks with citation
markers, build the citation list and estimate tokens at 4 characters per
token (`Math.ceil`). -/
def buildContext (cfg : RagCfg) (rr : RetrievalResult) :
    Str × List Citation × Nat × Nat :=
  let context := ((rr.chunks.enum.map (fun p =>
    (if cfg.citationFormat = lit "numbered" then
        lit "[" ++ (toString (p.1 + 1)).toList ++ lit "]"
      else
        lit "(Source: " ++ p.2.documentName ++ lit ")") ++
      lit "\n" ++ p.2.content)).intersperse nl2).flatten
  let citations := rr.chunks.map (fun c =>
    { chunkId := c.id, documentId := c.documentId, documentName := c.documentName,
      score := c.score, content := c.content, startChar := c.startChar,
      endChar := c.endChar : Citation })
  let totalTokens := (context.length + 3) / 4 + (rr.query.length + 3) / 4
  (context, citations, rr.chunks.length, totalTokens)

/-- `ContextBuilder.buildRagPrompt`: wrap the context into the system-prompt
template.  The `userQuery` parameter is unused, exactly as in the source
(token accounting reads the query from the retrieval result instead). -/
def buildRagPrompt (cfg : RagCfg) (_userQuery : Str) (rr : RetrievalResult)
    (customSystemPrompt : Option Str) : RagContext :=
  let built := buildContext cfg rr
  let context := built.1
  let systemPrompt := customSystemPrompt.getD
    (lit "You are NexusAI, an AI assistant that helps users answer questions based on their connected data sources.")
  let instructions :=
    if cfg.includeCitations then
      lit "Answer based on the provided context. When referencing specific information, cite your sources using the provided citations."
    else
      lit "Answer based on the provided context."
  let ragPrompt := systemPrompt ++ lit "\n\nContext from user's data:\n" ++
    (if context.isEmpty then lit "No relevant context found." else context) ++
    lit "\n\n" ++ instructions ++
    lit "\n\nIf the context doesn't contain enough information to answer the question, please say so."
  { prompt := ragPrompt, context := context, citations := built.2.1,
    retrievalTime := rr.executionTime, chunksUsed := built.2.2.1,
    totalTokens := built.2.2.2 }

/-- The output of `RagPipeline.query`: the built context and the transformed
query. -/
structure QueryOutput where
  ragContext : RagContext
  transformedQuery : Str

/-- `RagPipeline.query` from `retrieval.ts`: transform the query (`expanded`
needs no callback; `hyde` and `subquestion` run only when an `llmGenerate`
callback is supplied, silently keeping the original query otherwise), retrieve
with the transformed query, and build the RAG prompt from the original
query. -/
noncomputable def pipelineQuery (cfg : RagCfg)
    (searchFn : List ℝ → Nat → SearchFilter → List VectorSearchResult)
    (embedSingle : Str → List ℝ) (options : RetrievalOptions)
    (transformQuery : String) (customSystemPrompt : Option Str)
    (llmGenerate : Option (Str → Str)) : QueryOutput :=
  let transformedQuery :=
    if transformQuery = "expanded" then expandQuery options.query 5
    else if transformQuery = "hyde" then
      match llmGenerate with
      | some f => f (hydePrompt options.query)
      | none => options.query
    else if transformQuery = "subquestion" then
      match llmGenerate with
      | some f =>
        match (decomposeQuery options.query f).head? with
        | some q => if q.isEmpty then options.query else q
        | none => options.query
      | none => options.query
    else options.query
  let retrievalResult := retrieve cfg searchFn embedSingle
    { options with query := transformedQuery }
  { ragContext := buildRagPrompt cfg options.query retrievalResult customSystemPrompt
    transformedQuery := transformedQuery }

/-- **C4 (counterexample).** The claim as stated fails: requesting the `hyde`
transform without an `llmGenerate` callback produces an output identical to
requesting `original` — the result record (`ragContext`, `transformedQuery`)
carries no flag, nor any other observable trace, of the fallback. -/
theorem pipelineQuery_hyde_fallback_unflagged :
    pipelineQuery
        { retrievalTopK := 5, similarityThreshold := 0.7, rerankEnabled := false,
          rerankModel := none, maxContextTokens := 4000, includeCitations := true,
          citationFormat := lit "numbered" }
        (fun _ _ _ => []) (fun _ => [])
        { query := lit "what is x", userId := lit "u", documentIds := none,
          topK := none, similarityThreshold := none, useRag := none }
        "hyde" none none =
      pipelineQuery
        { retrievalTopK := 5, similarityThreshold := 0.7, rerankEnabled := false,
          rerankModel := none, maxContextTokens := 4000, includeCitations := true,
          citationFormat := lit "numbered" }
        (fun _ _ _ => []) (fun _ => [])
        { query := lit "what is x", userId := lit "u", documentIds := none,
          topK := none, similarityThreshold := none, useRag := none }
        "original" none none := by
  rfl

/-- **C4 (amended).** When `transformQuery` is `hyde` or `subquestion` and no
`llmGenerate` callback is supplied, the pipeline falls back to the original
query: retrieval proceeds with the unmodified query and the returned
`transformedQuery` equals it — but no explicit fallback flag is produced; the
output is identical to requesting the `original` transform. -/
theorem pipelineQuery_fallback_no_flag (cfg : RagCfg)
    (searchFn : List ℝ → Nat → SearchFilter → List VectorSearchResult)
    (embedSingle : Str → List ℝ) (options : RetrievalOptions)
    (customSystemPrompt : Option Str) :
    pipelineQuery cfg searchFn embedSingle options "hyde" customSystemPrompt none =
        pipelineQuery cfg searchFn embedSingle options "original"
          customSystemPrompt none ∧
      (pipelineQuery cfg searchFn embedSingle options "hyde" customSystemPrompt
        none).transformedQuery = options.query ∧
      pipelineQuery cfg searchFn embedSingle options "subquestion"
          customSystemPrompt none =
        pipelineQuery cfg searchFn embedSingle options "original"
          customSystemPrompt none := by
  refine ⟨rfl, rfl, rfl⟩

/-! ### Internal vector store (`lib/rag/vector-store.ts`)

Vector components and similarity scores are JS numbers, modelled as `ℝ`.
The Prisma tables behind the store are modelled as in-memory row lists in
their storage order. -/

/-- `a.reduce((sum, val) => sum + val * val, 0)`. -/
def sumSq (l : List ℝ) : ℝ := l.foldl (fun s v => s + v * v) 0

/-- `a.reduce((sum, val, i) => sum + val * b[i], 0)`; only evaluated behind
the equal-length guard, where it coincides with the sum of pairwise
products. -/
def dotList (a b : List ℝ) : ℝ := (List.zipWith (fun x y => x * y) a b).sum

/-- `cosineSimilarity(a, b)` from `vector-store.ts`: `0` on length mismatch
or when either magnitude is zero, else the normalised dot product. -/
noncomputable def cosineSimilarity (a b : List ℝ) : ℝ :=
  if a.length ≠ b.length then 0
  else
    let dotProduct := dotList a b
    let magA := Real.sqrt (sumSq a)
    let magB := Real.sqrt (sumSq b)
    if magA = 0 ∨ magB = 0 then 0
    else dotProduct / (magA * magB)

theorem foldl_sumSq (l : List ℝ) :
    ∀ a : ℝ, l.foldl (fun s v => s + v * v) a = a + (l.map (fun v => v * v)).sum := by
  induction l with
  | nil => intro a; simp
  | cons x xs ih =>
    intro a
    simp only [List.foldl_cons, List.map_cons, List.sum_cons, ih]
    ring

theorem sumSq_nonneg (l : List ℝ) : 0 ≤ sumSq l := by
  unfold sumSq
  rw [foldl_sumSq]
  simp only [zero_add]
  exact List.sum_nonneg (by
    intro x hx
    obtain ⟨v, _, rfl⟩ := List.mem_map.mp hx
    exact mul_self_nonneg v)

theorem dotList_self (v : List ℝ) : dotList v v = sumSq v := by
  unfold dotList sumSq
  rw [foldl_sumSq]
  simp only [zero_add]
  congr 1
  induction v with
  | nil => rfl
  | cons x xs ih => simp [ih]

theorem dotList_eq_sum_range (a : List ℝ) :
    ∀ b : List ℝ, a.length = b.length →
      dotList a b = ∑ i ∈ Finset.range a.length, a.getD i 0 * b.getD i 0 := by
  induction a with
  | nil =>
    intro b h
    simp [dotList]
  | cons x xs ih =>
    intro b h
    match b with
    | [] => simp at h
    | y :: ys =>
      simp only [List.length_cons] at h
      simp only [dotList, List.zipWith_cons_cons, List.sum_cons, List.length_cons]
      rw [Finset.sum_range_succ']
      simp only [List.getD_cons_succ, List.getD_cons_zero]
      have := ih ys (by omega)
      unfold dotList at this
      rw [this]
      ring

theorem sumSq_eq_sum_range (a : List ℝ) :
    sumSq a = ∑ i ∈ Finset.range a.length, (a.getD i 0) ^ 2 := by
  rw [← dotList_self, dotList_eq_sum_range a a rfl]
  refine Finset.sum_congr rfl fun i _ => ?_
  ring

/-- Cauchy–Schwarz for the list dot product (equal lengths). -/
theorem dotList_sq_le (a b : List ℝ) (h : a.length = b.length) :
    (dotList a b) ^ 2 ≤ sumSq a * sumSq b := by
  rw [dotList_eq_sum_range a b h, sumSq_eq_sum_range a, sumSq_eq_sum_range b, h]
  exact Finset.sum_mul_sq_le_sq_mul_sq _ _ _

/-- The cosine similarity of the source never exceeds `1`. -/
theorem cosineSimilarity_le_one (a b : List ℝ) : cosineSimilarity a b ≤ 1 := by
  unfold cosineSimilarity
  split_ifs with h1
  · norm_num
  · dsimp only
    split_ifs with h2
    case pos => norm_num
    case neg =>
      push_neg at h2
      have hA : 0 < Real.sqrt (sumSq a) :=
        lt_of_le_of_ne (Real.sqrt_nonneg _) (Ne.symm h2.1)
      have hB : 0 < Real.sqrt (sumSq b) :=
        lt_of_le_of_ne (Real.sqrt_nonneg _) (Ne.symm h2.2)
      rw [div_le_one (mul_pos hA hB)]
      calc dotList a b ≤ |dotList a b| := le_abs_self _
        _ = Real.sqrt ((dotList a b) ^ 2) := (Real.sqrt_sq_eq_abs _).symm
        _ ≤ Real.sqrt (sumSq a * sumSq b) :=
          Real.sqrt_le_sqrt (dotList_sq_le a b (by simpa using h1))
        _ = Real.sqrt (sumSq a) * Real.sqrt (sumSq b) :=
          Real.sqrt_mul (sumSq_nonneg a) _

/-- The cosine similarity of a nonzero vector with itself is exactly `1`. -/
theorem cosineSimilarity_self (v : List ℝ) (hnz : sumSq v ≠ 0) :
    cosineSimilarity v v = 1 := by
  unfold cosineSimilarity
  have hpos : 0 < sumSq v := lt_of_le_of_ne (sumSq_nonneg v) (Ne.symm hnz)
  have hsqrt : Real.sqrt (sumSq v) ≠ 0 := by
    rw [ne_eq, Real.sqrt_eq_zero (sumSq_nonneg v)]
    exact hnz
  rw [if_neg (by simp)]
  rw [if_neg (by simp [hsqrt])]
  rw [dotList_self, Real.mul_self_sqrt (sumSq_nonneg v)]
  exact div_self hnz

/-- The metadata JSON stored on a chunk row (the fields the pipeline reads). -/
structure RowMeta where
  embeddingVector : Option (List ℝ)
  startChar : Option Int
  endChar : Option Int
  qualityScore : Option ℝ
  documentName : Option Str

/-- `VectorRecord` from `types.ts`. -/
structure VectorRecord where
  id : Str
  documentId : Str
  chunkIndex : Nat
  content : Str
  embedding : List ℝ
  metadata : RowMeta

/-- A row of the Prisma `chunk` table. -/
structure ChunkRow where
  id : Str
  documentId : Str
  chunkIndex : Nat
  content : Str
  startChar : Option Int
  endChar : Option Int
  qualityScore : Option ℝ
  metadata : RowMeta

/-- A row of the Prisma `document` table (the columns the store reads). -/
structure DocRow where
  id : Str
  name : Str
  userId : Str
  embeddingStatus : Str

/-- The database behind the internal store: both tables in storage order. -/
structure Db where
  documents : List DocRow
  chunks : List ChunkRow

/-- The `create` branch of `InternalVectorStore.upsert`: note that the
record's `embedding` field is not persisted anywhere — only `metadata` is. -/
def rowOfRecord (r : VectorRecord) : ChunkRow :=
  { id := r.id, documentId := r.documentId, chunkIndex := r.chunkIndex,
    content := r.content, startChar := r.metadata.startChar,
    endChar := r.metadata.endChar, qualityScore := r.metadata.qualityScore,
    metadata := r.metadata }

/-- The `update` branch of `InternalVectorStore.upsert`: `documentId` (and
`id`) are left unchanged. -/
def updateRow (row : ChunkRow) (r : VectorRecord) : ChunkRow :=
  { row with
      content := r.content
      chunkIndex := r.chunkIndex
      startChar := r.metadata.startChar
      endChar := r.metadata.endChar
      qualityScore := r.metadata.qualityScore
      metadata := r.metadata }

/-- One `prisma.chunk.upsert` call (`where: {id}` — create or replace). -/
def upsertOne (db : Db) (r : VectorRecord) : Db :=
  if db.chunks.any (fun row => decide (row.id = r.id)) then
    { db with
        chunks := db.chunks.map
          (fun row => if row.id = r.id then updateRow row r else row) }
  else
    { db with chunks := db.chunks ++ [rowOfRecord r] }

/-- `InternalVectorStore.upsert(records)`. -/
def upsert (db : Db) (records : List VectorRecord) : Db :=
  records.foldl upsertOne db

/-- Look up a chunk row's document (the Prisma relation join). -/
def findDoc (db : Db) (docId : Str) : Option DocRow :=
  db.documents.find? (fun d => decide (d.id = docId))

/-- The filter argument of `InternalVectorStore.search` (Prisma treats an
`undefined` field as no constraint). -/
structure StoreFilter where
  userId : Option Str
  documentId : Option Str

/-- The `where` clause of the search's `findMany`: the related document must
exist with `embeddingStatus = "COMPLETED"`, the filter's `userId`, and (when
present) the filter's `documentId`. -/
def rowMatches (db : Db) (filt : StoreFilter) (row : ChunkRow) : Bool :=
  match findDoc db row.documentId with
  | none => false
  | some d =>
    decide (d.embeddingStatus = lit "COMPLETED") &&
      (match filt.userId with
       | none => true
       | some u => decide (d.userId = u)) &&
      (match filt.documentId with
       | none => true
       | some did => decide (d.id = did))

/-- `VectorSearchResult` as produced by the internal store (its `metadata`
holds only the document name). -/
structure StoreResult where
  id : Str
  documentId : Str
  chunkIndex : Nat
  content : Str
  score : ℝ
  documentName : Str

/-- The scoring map of `search`: cosine similarity against
`metadata.embeddingVector` when present, `0` otherwise. -/
noncomputable def scoreRow (db : Db) (queryEmbedding : List ℝ)
    (row : ChunkRow) : StoreResult :=
  { id := row.id, documentId := row.documentId, chunkIndex := row.chunkIndex,
    content := row.content,
    score :=
      (match row.metadata.embeddingVector with
       | some v => cosineSimilarity queryEmbedding v
       | none => 0)
    documentName :=
      (match findDoc db row.documentId with
       | some d => d.name
       | none => []) }

/-- Insert into a descending-sorted list, after entries of equal score. -/
noncomputable def insertByScore (x : StoreResult) :
    List StoreResult → List StoreResult
  | [] => [x]
  | y :: l => if y.score < x.score then x :: y :: l else y :: insertByScore x l

/-- `results.sort((a, b) => b.score - a.score)`: JS `Array.prototype.sort` is
stable and, for this consistent comparator, produces the unique stable
descending permutation — computed here by stable insertion. -/
noncomputable def sortByScoreDesc (l : List StoreResult) : List StoreResult :=
  l.foldl (fun acc x => insertByScore x acc) []

/-- `InternalVectorStore.search(queryEmbedding, topK, filter)`: fetch the
first `topK * 2` matching rows in storage order (`take: topK * 2`), score
them in memory, sort by descending score and truncate to `topK`. -/
noncomputable def searchStore (db : Db) (queryEmbedding : List ℝ)
    (topK : Nat) (filt : StoreFilter) : List StoreResult :=
  let candidates := (db.chunks.filter (rowMatches db filt)).take (topK * 2)
  let results := candidates.map (scoreRow db queryEmbedding)
  (sortByScoreDesc results).take topK

theorem mem_insertByScore {y x : StoreResult} {l : List StoreResult} :
    y ∈ insertByScore x l ↔ y = x ∨ y ∈ l := by
  induction l with
  | nil => simp [insertByScore]
  | cons z l ih =>
    simp only [insertByScore]
    split_ifs with h
    · simp [or_comm, or_assoc, or_left_comm]
    · simp [ih]
      tauto

theorem mem_sortAux (l : List StoreResult) :
    ∀ (acc : List StoreResult) (y : StoreResult),
      y ∈ l.foldl (fun acc x => insertByScore x acc) acc ↔ y ∈ acc ∨ y ∈ l := by
  induction l with
  | nil => intro acc y; simp
  | cons x l ih =>
    intro acc y
    simp only [List.foldl_cons, ih, mem_insertByScore]
    simp [or_comm, or_assoc, or_left_comm]

theorem mem_sortByScoreDesc {y : StoreResult} {l : List StoreResult} :
    y ∈ sortByScoreDesc l ↔ y ∈ l := by
  unfold sortByScoreDesc
  rw [mem_sortAux]
  simp

theorem length_insertByScore (x : StoreResult) (l : List StoreResult) :
    (insertByScore x l).length = l.length + 1 := by
  induction l with
  | nil => rfl
  | cons z l ih =>
    simp only [insertByScore]
    split_ifs with h
    · simp
    · simp [ih]

theorem length_sortAux (l : List StoreResult) :
    ∀ acc : List StoreResult,
      (l.foldl (fun acc x => insertByScore x acc) acc).length =
        acc.length + l.length := by
  induction l with
  | nil => intro acc; simp
  | cons x l ih =>
    intro acc
    simp only [List.foldl_cons, ih, length_insertByScore, List.length_cons]
    omega

theorem length_sortByScoreDesc (l : List StoreResult) :
    (sortByScoreDesc l).length = l.length := by
  unfold sortByScoreDesc
  rw [length_sortAux]
  simp

/-- **C10.** `InternalVectorStore.search` is total on malformed stored data:
every result it returns is the scored image of a fetched candidate row, and a
candidate whose metadata lacks an `embeddingVector`, or whose stored vector's
length differs from the query embedding's, or where either vector has zero
magnitude (zero sum of squares), is assigned score exactly `0` — the guards in
`search` and `cosineSimilarity` return `0` before any division can produce an
exception or `NaN`. -/
theorem searchStore_total_on_malformed (db : Db) (qe : List ℝ) (topK : Nat)
    (filt : StoreFilter) :
    (∀ row ∈ (db.chunks.filter (rowMatches db filt)).take (topK * 2),
      (row.metadata.embeddingVector = none ∨
        ∃ v, row.metadata.embeddingVector = some v ∧
          (v.length ≠ qe.length ∨ sumSq v = 0 ∨ sumSq qe = 0)) →
      (scoreRow db qe row).score = 0) ∧
    (∀ x ∈ searchStore db qe topK filt,
      ∃ row ∈ (db.chunks.filter (rowMatches db filt)).take (topK * 2),
        x = scoreRow db qe row) := by
  constructor
  · intro row _ hmal
    rcases hmal with hnone | ⟨v, hv, hbad⟩
    · simp [scoreRow, hnone]
    · simp only [scoreRow, hv]
      unfold cosineSimilarity
      rcases hbad with hlen | hzv | hzq
      · rw [if_pos (by omega)]
      · by_cases hl : qe.length = v.length
        · rw [if_neg (by omega)]
          dsimp only
          rw [if_pos (Or.inr (by rw [hzv, Real.sqrt_zero]))]
        · rw [if_pos (by omega)]
      · by_cases hl : qe.length = v.length
        · rw [if_neg (by omega)]
          dsimp only
          rw [if_pos (Or.inl (by rw [hzq, Real.sqrt_zero]))]
        · rw [if_pos (by omega)]
  · intro x hx
    unfold searchStore at hx
    have hx2 : x ∈ sortByScoreDesc
        (((db.chunks.filter (rowMatches db filt)).take (topK * 2)).map
          (scoreRow db qe)) := (List.take_sublist _ _).mem hx
    have hx3 := mem_sortByScoreDesc.mp hx2
    obtain ⟨row, hrow, rfl⟩ := List.mem_map.mp hx3
    exact ⟨row, hrow, rfl⟩

/-- A completed document row used by the concrete store theorems. -/
def exampleDoc : DocRow :=
  { id := lit "d", name := lit "Doc", userId := lit "u",
    embeddingStatus := lit "COMPLETED" }

/-- A stored chunk row whose metadata lacks an `embeddingVector`. -/
def exampleRowNoVec : ChunkRow :=
  { id := lit "r", documentId := lit "d", chunkIndex := 0, content := lit "c",
    startChar := none, endChar := none, qualityScore := none,
    metadata := ⟨none, none, none, none, none⟩ }

/-- A stored chunk row whose metadata carries the embedding `[1, 0]`. -/
def exampleRowWithVec : ChunkRow :=
  { id := lit "s", documentId := lit "d", chunkIndex := 1, content := lit "cs",
    startChar := none, endChar := none, qualityScore := none,
    metadata := ⟨some [1, 0], none, none, none, none⟩ }

/-- The search filter matching `exampleDoc`'s user. -/
def exampleFilt : StoreFilter := ⟨some (lit "u"), none⟩

/-- A `VectorRecord` with embedding `[1, 0]` whose metadata does **not**
contain the embedding — exactly the shape `processDocument` produces
(its record metadata holds offsets, quality and name, never the vector). -/
def exampleRecord : VectorRecord :=
  { id := lit "r", documentId := lit "d", chunkIndex := 0, content := lit "c",
    embedding := [1, 0], metadata := ⟨none, none, none, none, none⟩ }

/-- Witness for C10 at a concrete input: a store holding one matching row
without an `embeddingVector`; the row is a fetched candidate, it is malformed,
and its assigned score is exactly `0`. -/
theorem searchStore_total_on_malformed_witness :
    exampleRowNoVec ∈
        ((Db.mk [exampleDoc] [exampleRowNoVec]).chunks.filter
          (rowMatches (Db.mk [exampleDoc] [exampleRowNoVec]) exampleFilt)).take (1 * 2) ∧
      (scoreRow (Db.mk [exampleDoc] [exampleRowNoVec]) [(1 : ℝ)]
        exampleRowNoVec).score = 0 :=
  ⟨by
    rw [show ((Db.mk [exampleDoc] [exampleRowNoVec]).chunks.filter
        (rowMatches (Db.mk [exampleDoc] [exampleRowNoVec]) exampleFilt)).take (1 * 2) =
      [exampleRowNoVec] from rfl]
    exact List.mem_singleton.mpr rfl,
   (searchStore_total_on_malformed (Db.mk [exampleDoc] [exampleRowNoVec])
      [(1 : ℝ)] 1 exampleFilt).1 exampleRowNoVec
     (by
       rw [show ((Db.mk [exampleDoc] [exampleRowNoVec]).chunks.filter
           (rowMatches (Db.mk [exampleDoc] [exampleRowNoVec]) exampleFilt)).take (1 * 2) =
         [exampleRowNoVec] from rfl]
       exact List.mem_singleton.mpr rfl)
     (Or.inl rfl)⟩

/-- **C1 (counterexample).** The claim as stated fails: `upsert` persists only
`record.metadata` and drops `record.embedding`, while `search` scores rows by
`metadata.embeddingVector`.  Upserting `exampleRecord` (embedding `[1, 0]`,
metadata without the vector — the very shape the ingestion service produces)
into a store holding a candidate whose metadata carries `[1, 0]`, then
searching with `exampleRecord.embedding`, returns the other candidate with
score `1` and the upserted record with score `0`: the upserted record does
not have the maximal score in the result set. -/
theorem upsert_search_not_self_maximal :
    (searchStore (upsert (Db.mk [exampleDoc] [exampleRowWithVec]) [exampleRecord])
        exampleRecord.embedding 2 exampleFilt).map (fun x => (x.id, x.score)) =
      [(lit "s", (1 : ℝ)), (lit "r", 0)] ∧ (0 : ℝ) < 1 := by
  refine ⟨?_, by norm_num⟩
  set db1 := upsert (Db.mk [exampleDoc] [exampleRowWithVec]) [exampleRecord] with hdb1
  have hs : (scoreRow db1 exampleRecord.embedding exampleRowWithVec).score = 1 := by
    show cosineSimilarity [(1 : ℝ), 0] [1, 0] = 1
    exact cosineSimilarity_self [1, 0] (by
      show (0 + (1 : ℝ) * 1) + 0 * 0 ≠ 0
      norm_num)
  have hr : (scoreRow db1 exampleRecord.embedding
      (rowOfRecord exampleRecord)).score = 0 := rfl
  have h0 : searchStore db1 exampleRecord.embedding 2 exampleFilt =
      (if (scoreRow db1 exampleRecord.embedding exampleRowWithVec).score <
          (scoreRow db1 exampleRecord.embedding (rowOfRecord exampleRecord)).score then
        [scoreRow db1 exampleRecord.embedding (rowOfRecord exampleRecord),
         scoreRow db1 exampleRecord.embedding exampleRowWithVec]
      else
        [scoreRow db1 exampleRecord.embedding exampleRowWithVec,
         scoreRow db1 exampleRecord.embedding (rowOfRecord exampleRecord)]).take 2 := rfl
  rw [h0, hs, hr, if_neg (by norm_num : ¬ ((1 : ℝ) < 0))]
  rw [show ([scoreRow db1 exampleRecord.embedding exampleRowWithVec,
      scoreRow db1 exampleRecord.embedding (rowOfRecord exampleRecord)]).take 2 =
    [scoreRow db1 exampleRecord.embedding exampleRowWithVec,
     scoreRow db1 exampleRecord.embedding (rowOfRecord exampleRecord)] from rfl]
  simp only [List.map_cons, List.map_nil, hs, hr]
  rfl

/-- Upserting a record with a fresh id appends its row. -/
theorem upsert_fresh (db : Db) (r : VectorRecord)
    (hfresh : ∀ row ∈ db.chunks, row.id ≠ r.id) :
    upsert db [r] = { db with chunks := db.chunks ++ [rowOfRecord r] } := by
  unfold upsert upsertOne
  simp only [List.foldl_cons, List.foldl_nil]
  rw [if_neg]
  simp only [List.any_eq_true, decide_eq_true_eq, not_exists]
  intro row
  intro hcon
  exact absurd hcon.2 (hfresh row hcon.1)

/-- Every score the internal store assigns is at most `1`. -/
theorem scoreRow_le_one (db : Db) (qe : List ℝ) (row : ChunkRow) :
    (scoreRow db qe row).score ≤ 1 := by
  simp only [scoreRow]
  match row.metadata.embeddingVector with
  | some v => exact cosineSimilarity_le_one qe v
  | none => norm_num

/-- **C1 (amended).** After `InternalVectorStore.upsert([r])` of a record
whose metadata carries its embedding under `embeddingVector` (the stored
field `search` actually reads — `upsert` drops `r.embedding` itself), whose
embedding is nonzero, whose id is fresh, whose row passes the search filter
(document `COMPLETED`, matching user), and when the matching candidates fit
the fetch window (at most `topK`), a search with `r.embedding` as the query
embedding returns `r`'s row with score exactly `1`, the maximal score in the
result set. -/
theorem upsert_search_self_similarity (db : Db) (r : VectorRecord)
    (topK : Nat) (filt : StoreFilter)
    (hmeta : r.metadata.embeddingVector = some r.embedding)
    (hnz : sumSq r.embedding ≠ 0)
    (hfresh : ∀ row ∈ db.chunks, row.id ≠ r.id)
    (hmatch : rowMatches (upsert db [r]) filt (rowOfRecord r) = true)
    (hcount : ((upsert db [r]).chunks.filter
        (rowMatches (upsert db [r]) filt)).length ≤ topK) :
    ∃ x ∈ searchStore (upsert db [r]) r.embedding topK filt,
      x.id = r.id ∧ x.score = 1 ∧
        ∀ y ∈ searchStore (upsert db [r]) r.embedding topK filt,
          y.score ≤ x.score := by
  set db1 := upsert db [r] with hdb1
  set L := db1.chunks.filter (rowMatches db1 filt) with hL
  have htake : L.take (topK * 2) = L :=
    List.take_of_length_le (le_trans hcount (by omega))
  have hrowmem : rowOfRecord r ∈ L := by
    rw [hL]
    refine List.mem_filter.mpr ⟨?_, hmatch⟩
    rw [hdb1, upsert_fresh db r hfresh]
    simp
  have hsearch : searchStore db1 r.embedding topK filt =
      (sortByScoreDesc (L.map (scoreRow db1 r.embedding))).take topK := by
    unfold searchStore
    rw [← hL, htake]
  have hlen : (sortByScoreDesc (L.map (scoreRow db1 r.embedding))).length ≤ topK := by
    rw [length_sortByScoreDesc, List.length_map]
    exact hcount
  have hout : searchStore db1 r.embedding topK filt =
      sortByScoreDesc (L.map (scoreRow db1 r.embedding)) := by
    rw [hsearch, List.take_of_length_le hlen]
  refine ⟨scoreRow db1 r.embedding (rowOfRecord r), ?_, rfl, ?_, ?_⟩
  · rw [hout]
    exact mem_sortByScoreDesc.mpr (List.mem_map.mpr ⟨rowOfRecord r, hrowmem, rfl⟩)
  · show (scoreRow db1 r.embedding (rowOfRecord r)).score = 1
    simp only [scoreRow, rowOfRecord, hmeta]
    exact cosineSimilarity_self r.embedding hnz
  · intro y hy
    rw [hout] at hy
    obtain ⟨row, _, rfl⟩ := List.mem_map.mp (mem_sortByScoreDesc.mp hy)
    have h1 : (scoreRow db1 r.embedding row).score ≤ 1 := scoreRow_le_one _ _ _
    have h2 : (scoreRow db1 r.embedding (rowOfRecord r)).score = 1 := by
      simp only [scoreRow, rowOfRecord, hmeta]
      exact cosineSimilarity_self r.embedding hnz
    rw [h2]
    exact h1

/-- A `VectorRecord` whose metadata does carry its embedding. -/
def exampleGoodRecord : VectorRecord :=
  { id := lit "g", documentId := lit "d", chunkIndex := 0, content := lit "c",
    embedding := [1, 0], metadata := ⟨some [1, 0], none, none, none, none⟩ }

/-- Witness for C1 (amended) at a concrete input: upserting
`exampleGoodRecord` into an empty store and searching with its own embedding
returns it with score `1`, maximal in the result set. -/
theorem upsert_search_self_similarity_witness :
    sumSq exampleGoodRecord.embedding ≠ 0 ∧
    ∃ x ∈ searchStore (upsert (Db.mk [exampleDoc] []) [exampleGoodRecord])
        exampleGoodRecord.embedding 1 exampleFilt,
      x.id = exampleGoodRecord.id ∧ x.score = 1 ∧
        ∀ y ∈ searchStore (upsert (Db.mk [exampleDoc] []) [exampleGoodRecord])
            exampleGoodRecord.embedding 1 exampleFilt,
          y.score ≤ x.score :=
  ⟨by
    show (0 + (1 : ℝ) * 1) + 0 * 0 ≠ 0
    norm_num,
   upsert_search_self_similarity (Db.mk [exampleDoc] []) exampleGoodRecord 1
     exampleFilt rfl
     (by
       show (0 + (1 : ℝ) * 1) + 0 * 0 ≠ 0
       norm_num)
     (by simp)
     rfl
     (by decide)⟩

end NexusRag
